import Mathlib

/-!
Verification of the SecureClienServeMessagingApplicaon repository.

Shallow embedding of the parts of the code base that the checked claims
are about:

* frontend/src/utils/crypto.js — hex codec, hybrid message encryption and
  the private-key backup scheme (the RSA-OAEP / AES-CBC / PBKDF2 library
  primitives are abstracted as oracles whose hypotheses state the library
  contracts; everything the repository itself computes is embedded
  concretely);
* frontend/src/utils/storage.js — the localStorage wrapper;
* frontend/src/hooks/useMessages.js — per-message decryption with the
  placeholder fallback;
* backend/src/services/authService.js — loginUser;
* backend/src/routes/messages.js — the send / history handlers;
* backend/src/services/messageService.js — message creation, poll
  delivery, broadcast, embedded as a state machine over a database model.

The database layer (backend/src/data) is not part of the provided
sources; it is modelled from the specification (see the definitions
marked with the comment starting Modelled from the spec).
-/

-- ═══════════════════════ Definitions ═══════════════════════

-- ── Hex codec (frontend/src/utils/crypto.js, hexToBytes / bytesToHex) ──

/-- Value of one hex digit character, as parseInt with radix 16 reads it
(digits, lowercase letters, uppercase letters). -/
def hexDigitVal (c : Char) : Nat :=
  if c.toNat ≤ 57 then c.toNat - 48
  else if c.toNat ≤ 70 then c.toNat - 55
  else c.toNat - 87

/-- The sixteen characters produced by Number.prototype.toString(16)
for one hex digit (lowercase). -/
def natToHexDigitChar (n : Nat) : Char :=
  if n < 10 then Char.ofNat (48 + n) else Char.ofNat (87 + n)

/-- hexToBytes from crypto.js: reads the string two characters at a time,
parseInt(hex.substr(2i, 2), 16) per pair; a trailing lone character is
dropped, matching the source allocation of floor(length / 2) bytes. -/
def hexToBytesL : List Char → List Nat
  | c1 :: c2 :: rest => (16 * hexDigitVal c1 + hexDigitVal c2) :: hexToBytesL rest
  | _ => []

/-- One byte rendered by bytes[i].toString(16).padStart(2, quote 0 quote):
bytes of a Uint8Array are below 256, so the result is exactly two
lowercase hex characters. -/
def byteToHexL (b : Nat) : List Char :=
  if b < 16 then ['0', natToHexDigitChar b]
  else [natToHexDigitChar (b / 16), natToHexDigitChar (b % 16)]

/-- bytesToHex from crypto.js: concatenation of the two-character
renderings, in order. -/
def bytesToHexL : List Nat → List Char
  | [] => []
  | b :: rest => byteToHexL b ++ bytesToHexL rest

/-- An inclusive numeric range check, used by the character classes
below. -/
def between (lo hi n : Nat) : Bool := lo ≤ n && n ≤ hi

/-- The character set of CryptoJS hex output (lowercase hex digits). -/
def isLowerHexDigit (c : Char) : Bool :=
  between 48 57 c.toNat || between 97 102 c.toNat

-- ── Local credential store (frontend/src/utils/storage.js) ──

/-- The fixed localStorage key of the session token. -/
def TOKEN_KEY : String := "messaging_auth_token"

/-- The fixed localStorage key of the cached user profile. -/
def USER_KEY : String := "messaging_user"

/-- The fixed localStorage key of the PEM private key. -/
def PRIVATE_KEY_SLOT : String := "messaging_private_key"

/-- localStorage model: an association list of key / value pairs. -/
def Store : Type := List (String × String)

/-- localStorage.getItem: first binding of the key, null when absent. -/
def storeGet : Store → String → Option String
  | [], _ => none
  | (k0, v) :: rest, k => if k0 = k then some v else storeGet rest k

/-- localStorage.removeItem: drops every binding of the key. -/
def storeRemove : Store → String → Store
  | [], _ => []
  | p :: rest, k => if p.1 = k then storeRemove rest k else p :: storeRemove rest k

/-- getToken from storage.js. -/
def getToken (s : Store) : Option String := storeGet s TOKEN_KEY

/-- getPrivateKey from storage.js. -/
def getPrivateKey (s : Store) : Option String := storeGet s PRIVATE_KEY_SLOT

/-- getUser from storage.js: JSON.parse of the stored profile, null on a
missing or malformed entry; the parse step is a parameter since JSON is
a library facility. -/
def getUser {Json : Type} (parse : String → Option Json) (s : Store) : Option Json :=
  match storeGet s USER_KEY with
  | none => none
  | some raw => parse raw

/-- removeToken from storage.js. -/
def removeToken (s : Store) : Store := storeRemove s TOKEN_KEY

/-- removeUser from storage.js. -/
def removeUser (s : Store) : Store := storeRemove s USER_KEY

/-- removePrivateKey from storage.js. -/
def removePrivateKey (s : Store) : Store := storeRemove s PRIVATE_KEY_SLOT

/-- clearAuth from storage.js: removeToken(); removeUser();
removePrivateKey(); in sequence on the shared store. -/
def clearAuth (s : Store) : Store :=
  removePrivateKey (removeUser (removeToken s))

-- ── Backend validation constants (backend/src/utils/validation.js) ──

/-- VALIDATION_RULES.message.maxEncryptedLength. -/
def maxEncryptedLength : Nat := 20000

/-- VALIDATION_RULES.pagination.defaultPageSize. -/
def defaultPageSize : Nat := 50

/-- VALIDATION_RULES.pagination.maxPageSize. -/
def maxPageSize : Nat := 100

/-- ERROR_MESSAGES.message.tooLong (Hebrew, from validation.js). -/
def tooLongMsg : String := "הודעה מוצפנת ארוכה מדי"

/-- The 400 message of the send route for missing message data. -/
def missingFieldsMsg : String := "נדרשים נתוני הודעה מוצפנת (encryptedContent, iv, keys[])"

/-- The 400 message of the send route for an incomplete keys entry. -/
def badKeyEntryMsg : String := "כל רשומת מפתח חייבת לכלול userId ו-encryptedKey"

-- ── POST /api/messages/send handler (backend/src/routes/messages.js) ──

/-- One element of the request body keys array; fields may be absent
(undefined) and are subject to JS truthiness checks. -/
structure KeyEntry where
  userId : Option Nat
  encryptedKey : Option String
deriving DecidableEq, Repr

/-- The keys field of the request body: absent / present but not an
array / an array of entries. -/
inductive KeysField
  | absent
  | notArray
  | arr (entries : List KeyEntry)
deriving DecidableEq, Repr

/-- The body of POST /api/messages/send as the handler reads it. -/
structure SendBody where
  encryptedContent : Option String
  iv : Option String
  keys : KeysField
deriving DecidableEq, Repr

/-- JS truthiness of a possibly-absent string: undefined and the empty
string are falsy. -/
def truthyStr : Option String → Bool
  | none => false
  | some s => !(s == "")

/-- JS truthiness of a possibly-absent number: undefined and 0 are
falsy. -/
def truthyNum : Option Nat → Bool
  | none => false
  | some n => !(n == 0)

/-- JS truthiness of the keys value; a present array (even empty) and a
present non-array object are truthy. -/
def keysTruthy : KeysField → Bool
  | .absent => false
  | .notArray => true
  | .arr _ => true

/-- Array.isArray(keys). -/
def keysIsArray : KeysField → Bool
  | .arr _ => true
  | _ => false

/-- The entries of the keys value when it is an array. -/
def keysEntries : KeysField → List KeyEntry
  | .arr l => l
  | _ => []

/-- Option.getD specialised to the JS reading of a validated string
field (only applied after the truthiness check succeeded). -/
def jsStr (v : Option String) : String := v.getD ""

/-- Outcome of the send handler: an HTTP 400 with an error message, or
HTTP 201 after delegating to messageService.createMessage with the
listed arguments. -/
inductive SendOutcome
  | badRequest (error : String)
  | created (senderId : Nat) (senderUsername : String)
      (encryptedContent iv : String) (keys : List KeyEntry)
deriving DecidableEq, Repr

/-- The first validation gate of the send route:
!encryptedContent || !iv || !keys || !Array.isArray(keys) ||
keys.length === 0. -/
def sendGate1 (b : SendBody) : Bool :=
  !(truthyStr b.encryptedContent) || !(truthyStr b.iv) || !(keysTruthy b.keys)
    || !(keysIsArray b.keys) || (keysEntries b.keys).length == 0

/-- The second validation gate of the send route: some keys entry with
!k.userId || !k.encryptedKey. -/
def sendGate2 (b : SendBody) : Bool :=
  (keysEntries b.keys).any (fun k => !(truthyNum k.userId) || !(truthyStr k.encryptedKey))

/-- The third validation gate of the send route:
encryptedContent.length > 20000. -/
def sendGate3 (b : SendBody) : Bool :=
  decide (maxEncryptedLength < (jsStr b.encryptedContent).length)

/-- The POST /api/messages/send handler (routes/messages.js lines
19-52): the three validation gates, in source order, then delegation to
createMessage and a 201 response. -/
def sendHandler (userId : Nat) (username : String) (b : SendBody) : SendOutcome :=
  if sendGate1 b then .badRequest missingFieldsMsg
  else if sendGate2 b then .badRequest badKeyEntryMsg
  else if sendGate3 b then .badRequest tooLongMsg
  else
    .created userId username (jsStr b.encryptedContent) (jsStr b.iv) (keysEntries b.keys)

/-- The checks listed by the claim, read literally: the three fields
present, keys a non-empty array, every entry carrying both userId and
encryptedKey, and the content within the length bound. -/
def claimSendChecksPass (b : SendBody) : Bool :=
  b.encryptedContent.isSome && b.iv.isSome && keysIsArray b.keys
    && !((keysEntries b.keys).isEmpty)
    && (keysEntries b.keys).all (fun e => e.userId.isSome && e.encryptedKey.isSome)
    && decide ((jsStr b.encryptedContent).length ≤ maxEncryptedLength)

/-- The amended validity condition: the JS-truthy reading of the checks
(an empty string field, a userId of 0 or an empty encryptedKey also
fail validation). -/
def validSendBody (b : SendBody) : Bool :=
  truthyStr b.encryptedContent && truthyStr b.iv && keysIsArray b.keys
    && !((keysEntries b.keys).isEmpty)
    && (keysEntries b.keys).all (fun k => truthyNum k.userId && truthyStr k.encryptedKey)
    && decide ((jsStr b.encryptedContent).length ≤ maxEncryptedLength)

/-- A body passing every check the claim lists although the handler
rejects it: the encryptedContent field is present but empty, hence
falsy. -/
def cexSendBody : SendBody :=
  ⟨some "", some "aa", .arr [⟨some 1, some "k"⟩]⟩

-- ── GET /api/messages/history parameter parsing (routes/messages.js) ──

/-- A decimal digit character. -/
def isDecDigit (c : Char) : Bool := between 48 57 c.toNat

/-- A hex digit character in any case, as parseInt radix 16 accepts. -/
def isHexDigitAnyCase (c : Char) : Bool :=
  between 48 57 c.toNat || between 97 102 c.toNat || between 65 70 c.toNat

/-- JS whitespace accepted by parseInt before the number (modelled as
the common blank characters). -/
def isJsWs (c : Char) : Bool :=
  c == ' ' || c == '\t' || c == '\n' || c == '\r'

/-- Accumulate a digit list in the given radix. -/
def digitsToNat (radix : Nat) (ds : List Char) : Nat :=
  ds.foldl (fun a c => a * radix + hexDigitVal c) 0

/-- The magnitude part of JS parseInt with no explicit radix: either a
0x / 0X hex literal or greedy leading decimal digits; NaN (none) when no
digit is read. -/
def parseIntMag (l : List Char) : Option Nat :=
  match l with
  | '0' :: c :: rest =>
    if c == 'x' || c == 'X' then
      let ds := rest.takeWhile isHexDigitAnyCase
      if ds.isEmpty then none else some (digitsToNat 16 ds)
    else
      let ds := (('0' :: c :: rest).takeWhile isDecDigit)
      if ds.isEmpty then none else some (digitsToNat 10 ds)
  | _ =>
    let ds := l.takeWhile isDecDigit
    if ds.isEmpty then none else some (digitsToNat 10 ds)

/-- JS parseInt(s) with no radix argument: leading whitespace skipped,
optional sign, hex autodetection, greedy leading digits; none models
NaN. -/
def parseIntJs (s : String) : Option Int :=
  let l := s.data.dropWhile isJsWs
  match l with
  | '-' :: rest => (parseIntMag rest).map (fun n => -(n : Int))
  | '+' :: rest => (parseIntMag rest).map (fun n => (n : Int))
  | _ => (parseIntMag l).map (fun n => (n : Int))

/-- parseInt applied to a possibly-absent query value: an absent value
(undefined) coerces to a string without digits, hence NaN. -/
def parseQuery (q : Option String) : Option Int :=
  match q with
  | none => none
  | some s => parseIntJs s

/-- The JS expression (v || d): NaN and 0 are falsy and give the
default. -/
def jsOrDefault (v : Option Int) (d : Int) : Int :=
  match v with
  | none => d
  | some n => if n = 0 then d else n

/-- page as computed by the history route:
Math.max(1, parseInt(req.query.page) || 1). -/
def historyPage (q : Option String) : Int :=
  max 1 (jsOrDefault (parseQuery q) 1)

/-- pageSize as computed by the history route:
Math.min(100, Math.max(1, parseInt(req.query.pageSize) || 50)). -/
def historyPageSize (q : Option String) : Int :=
  min (maxPageSize : Int) (max 1 (jsOrDefault (parseQuery q) (defaultPageSize : Int)))

/-- The claim reading of the page parameter: the parsed value, 1 when
parsing fails, floored at 1. -/
def claimPage (q : Option String) : Int :=
  match parseQuery q with
  | none => 1
  | some v => max 1 v

/-- The claim reading of the pageSize parameter: the parsed value, 50
when parsing fails, floored at 1 and capped at 100. -/
def claimPageSize (q : Option String) : Int :=
  match parseQuery q with
  | none => 50
  | some v => min 100 (max 1 v)

/-- The amended reading of pageSize: the default 50 also applies when
the query parses to 0, because the source uses the JS falsy-default
operator before flooring. -/
def amendedPageSize (q : Option String) : Int :=
  match parseQuery q with
  | none => 50
  | some v => if v = 0 then 50 else min 100 (max 1 v)

-- ── loginUser (backend/src/services/authService.js) ──

/-- A users table row, with the columns loginUser reads. -/
structure DbUser where
  id : Nat
  username : String
  password_hash : String
  encrypted_private_key : Option String
  encrypted_private_key_iv : Option String
deriving DecidableEq, Repr

/-- Modelled from the spec: find-user-by-username of the data access
layer (backend/src/data is not among the provided sources); first row
with the given username. -/
def findUserByUsername (users : List DbUser) (u : String) : Option DbUser :=
  users.find? (fun r => r.username == u)

/-- The error message shared by both login failure paths. -/
def invalidCredsMsg : String := "Invalid username or password"

/-- Result of loginUser: a thrown error carrying err.status and
err.message, or the success payload. -/
inductive LoginResult (Token : Type)
  | failure (status : Nat) (message : String)
  | success (token : Token) (userId : Nat) (username : String)
      (encryptedPrivateKey : Option String) (encryptedPrivateKeyIv : Option String)
deriving DecidableEq

/-- The JS expression (v || null) on a nullable string: null and the
empty string both give null. -/
def jsOrNull : Option String → Option String
  | none => none
  | some s => if s = "" then none else some s

/-- loginUser from authService.js: bcrypt.compare is the checkPw oracle
and jwt.sign the sign oracle. -/
def loginUser {Token : Type} (users : List DbUser)
    (checkPw : String → String → Bool) (sign : Nat → String → Token)
    (username password : String) : LoginResult Token :=
  match findUserByUsername users username with
  | none => .failure 401 invalidCredsMsg
  | some user =>
    if checkPw password user.password_hash then
      .success (sign user.id user.username) user.id user.username
        (jsOrNull user.encrypted_private_key) (jsOrNull user.encrypted_private_key_iv)
    else
      .failure 401 invalidCredsMsg

-- ── Crypto oracles and the hybrid scheme (frontend/src/utils/crypto.js) ──

/-- The RSA-OAEP library primitives (window.crypto.subtle), abstracted:
a key pair is named by one Nat (public and private half of the same
pair), enc takes the fresh OAEP randomness as an explicit nonce, dec
returns none on failure. The ciphertext type is a parameter standing
for the base64 strings of the source. -/
structure RsaPrims (RsaCt : Type) where
  enc : Nat → Nat → List Nat → RsaCt
  dec : Nat → RsaCt → Option (List Nat)

/-- The AES-256-CBC library primitives (CryptoJS), abstracted: enc takes
the hex key, hex IV and plaintext; dec returns none on a padding or
UTF-8 failure. The ciphertext type is a parameter standing for the hex
strings of the source. -/
structure AesPrims (AesCt : Type) where
  enc : String → String → String → AesCt
  dec : AesCt → String → String → Option String

/-- A recipient as encryptMessageForRecipients receives it: userId and
the PEM public key (the name of the key pair in the model). -/
structure Recipient where
  userId : Nat
  publicKey : Nat
deriving DecidableEq, Repr

/-- One entry of the keys result: per-recipient RSA-wrapped AES key. -/
structure WrappedKey (RsaCt : Type) where
  userId : Nat
  encryptedKey : RsaCt
deriving DecidableEq, Repr

/-- The result of encryptMessageForRecipients. -/
structure EncryptedMessage (RsaCt AesCt : Type) where
  encryptedContent : AesCt
  iv : String
  keys : List (WrappedKey RsaCt)
deriving DecidableEq, Repr

/-- The randomness drawn during one encryptMessageForRecipients call:
the fresh AES key (generateAESKey), the fresh CBC IV, and the OAEP
randomness of the i-th rsaEncrypt call. -/
structure RandomTape where
  aesKeyHex : String
  ivHex : String
  nonce : Nat → Nat

/-- The for-loop of encryptMessageForRecipients: one rsaEncrypt call per
recipient, in order, each drawing fresh OAEP randomness. -/
def wrapKeys {RsaCt : Type} (R : RsaPrims RsaCt) (nonce : Nat → Nat)
    (aesKeyBytes : List Nat) : Nat → List Recipient → List (WrappedKey RsaCt)
  | _, [] => []
  | i, r :: rest =>
    ⟨r.userId, R.enc r.publicKey (nonce i) aesKeyBytes⟩ :: wrapKeys R nonce aesKeyBytes (i + 1) rest

/-- encryptMessageForRecipients from crypto.js: generate an AES key,
AES-encrypt the plaintext once, RSA-wrap the key bytes for every
recipient. -/
def encryptMessageForRecipients {RsaCt AesCt : Type}
    (R : RsaPrims RsaCt) (A : AesPrims AesCt) (rand : RandomTape)
    (plaintext : String) (recipients : List Recipient) :
    EncryptedMessage RsaCt AesCt :=
  let aesKeyHex := rand.aesKeyHex
  let encrypted := A.enc aesKeyHex rand.ivHex plaintext
  let aesKeyBytes := hexToBytesL aesKeyHex.data
  ⟨encrypted, rand.ivHex, wrapKeys R rand.nonce aesKeyBytes 0 recipients⟩

/-- decryptMessage from crypto.js: RSA-unwrap the AES key, render it as
hex (bytesToHex), AES-decrypt the content; a library failure propagates
as none. -/
def decryptMessage {RsaCt AesCt : Type}
    (R : RsaPrims RsaCt) (A : AesPrims AesCt)
    (encryptedContent : AesCt) (iv : String) (encryptedKey : RsaCt)
    (privateKey : Nat) : Option String :=
  match R.dec privateKey encryptedKey with
  | none => none
  | some aesKeyBytes => A.dec encryptedContent iv (String.mk (bytesToHexL aesKeyBytes))

-- ── Private-key backup (encryptPrivateKey / decryptPrivateKey) ──

/-- JS String.prototype.split on a single separator character. -/
def splitOn (sep : Char) : List Char → List (List Char)
  | [] => [[]]
  | c :: rest =>
    if c = sep then [] :: splitOn sep rest
    else
      match splitOn sep rest with
      | [] => [[c]]
      | p :: ps => (c :: p) :: ps

/-- The result of encryptPrivateKey: ciphertext plus the composite IV
string saltHex colon ivHex, kept as a character list. -/
structure EncryptedBackup (AesCt : Type) where
  encryptedPrivateKey : AesCt
  iv : List Char
deriving DecidableEq, Repr

/-- encryptPrivateKey from crypto.js: PBKDF2 (the kdf oracle, password
and salt hex to derived key hex) then aesEncrypt of the PEM under the
derived key, returning the ciphertext and the composite salt:iv
string. The fresh salt and IV are explicit randomness parameters. -/
def encryptPrivateKey {AesCt : Type} (A : AesPrims AesCt)
    (kdf : String → String → String) (saltHex ivHex : List Char)
    (privateKeyPem password : String) : EncryptedBackup AesCt :=
  let keyHex := kdf password (String.mk saltHex)
  let encrypted := A.enc keyHex (String.mk ivHex) privateKeyPem
  ⟨encrypted, saltHex ++ ':' :: ivHex⟩

/-- decryptPrivateKey from crypto.js: split the composite IV on the
colon, re-derive the PBKDF2 key from the extracted salt, aesDecrypt. -/
def decryptPrivateKey {AesCt : Type} (A : AesPrims AesCt)
    (kdf : String → String → String) (encryptedPrivateKey : AesCt)
    (ivComposite : List Char) (password : String) : Option String :=
  let parts := splitOn ':' ivComposite
  let saltHex := parts.getD 0 []
  let ivHex := parts.getD 1 []
  let keyHex := kdf password (String.mk saltHex)
  A.dec encryptedPrivateKey (String.mk ivHex) keyHex

-- ── Database model (backend/src/data, not among the provided sources) ──

/-- Modelled from the spec: a messages table row (section 4.16). -/
structure MessageRow where
  id : Nat
  sender_id : Nat
  encrypted_content : String
  encryption_iv : String
  created_at : Nat
deriving DecidableEq, Repr

/-- Modelled from the spec: a message_deliveries table row
(section 4.16). -/
structure DeliveryRow where
  message_id : Nat
  user_id : Nat
  encrypted_key : String
  delivered : Bool
deriving DecidableEq, Repr

/-- Modelled from the spec: the relational store. nextId is the next
message identifier and now the creation timestamp clock. -/
structure Db where
  users : List (Nat × String)
  messages : List MessageRow
  deliveries : List DeliveryRow
  nextId : Nat
  now : Nat
deriving DecidableEq, Repr

/-- Modelled from the spec: create-message(sender, ciphertext, iv),
returning the created row with a fresh identifier. -/
def dbCreateMessage (db : Db) (senderId : Nat) (content iv : String) :
    MessageRow × Db :=
  let row : MessageRow := ⟨db.nextId, senderId, content, iv, db.now⟩
  (row, { db with messages := db.messages ++ [row], nextId := db.nextId + 1 })

/-- Modelled from the spec: create-delivery-with-key(message id, user
id, encrypted key); the row starts undelivered. -/
def dbCreateDeliveryWithKey (db : Db) (messageId userId : Nat) (key : String) : Db :=
  { db with deliveries := db.deliveries ++ [⟨messageId, userId, key, false⟩] }

/-- The per-row effect of mark-delivered. -/
def markRow (messageId userId : Nat) (d : DeliveryRow) : DeliveryRow :=
  if d.message_id == messageId && d.user_id == userId then
    { d with delivered := true }
  else d

/-- Modelled from the spec: mark-delivered(message id, user id); sets
the flag of the (message, user) row. -/
def dbMarkDelivered (db : Db) (messageId userId : Nat) : Db :=
  { db with deliveries := db.deliveries.map (markRow messageId userId) }

/-- Normal form of every delivery mutation of the service: set the
delivered flag of the rows whose (message, user) identifiers satisfy a
condition, leave everything else intact. -/
def applyMarks (c : Nat → Nat → Bool) (d : DeliveryRow) : DeliveryRow :=
  if c d.message_id d.user_id then { d with delivered := true } else d

/-- The sender-username join column. -/
def dbSenderUsername (db : Db) (senderId : Nat) : String :=
  ((db.users.find? (fun p => p.1 == senderId)).map Prod.snd).getD ""

/-- The row shape of the joined delivery queries (message columns plus
sender_username plus the encrypted_key of this user). -/
structure JoinedRow where
  id : Nat
  sender_id : Nat
  sender_username : String
  encrypted_content : String
  encryption_iv : String
  encrypted_key : String
  created_at : Nat
deriving DecidableEq, Repr

/-- Modelled from the spec: get-undelivered-for-user, joining each
undelivered delivery row of the user with its message and sender. -/
def dbGetUndeliveredForUserE2E (db : Db) (userId : Nat) : List JoinedRow :=
  (db.deliveries.filter (fun d => d.user_id == userId && !d.delivered)).filterMap
    (fun d =>
      (db.messages.find? (fun m => m.id == d.message_id)).map (fun m =>
        ⟨m.id, m.sender_id, dbSenderUsername db m.sender_id, m.encrypted_content,
          m.encryption_iv, d.encrypted_key, m.created_at⟩))

/-- The identifier condition marked by one poll fetch of the user: the
fetched message identifiers, for that user only. -/
def pollCond (ms : List JoinedRow) (u : Nat) : Nat → Nat → Bool :=
  fun mi ui => ms.any (fun m => mi == m.id) && ui == u

/-- Modelled from the spec: get-message-history-for-user, all of the
user deliveries joined, newest first, paginated, with the total count. -/
def dbGetMessageHistoryForUser (db : Db) (userId : Nat) (page pageSize : Int) :
    List JoinedRow × Nat :=
  let joined :=
    (db.deliveries.filter (fun d => d.user_id == userId)).filterMap
      (fun d =>
        (db.messages.find? (fun m => m.id == d.message_id)).map (fun m =>
          (⟨m.id, m.sender_id, dbSenderUsername db m.sender_id, m.encrypted_content,
            m.encryption_iv, d.encrypted_key, m.created_at⟩ : JoinedRow)))
  let newestFirst := joined.reverse
  let slice := (newestFirst.drop (((page - 1) * pageSize).toNat)).take pageSize.toNat
  (slice, (db.deliveries.filter (fun d => d.user_id == userId)).length)

-- ── Message service (backend/src/services/messageService.js) ──

/-- The camelCase message shape the service returns. -/
structure MessageView where
  id : Nat
  senderId : Nat
  senderUsername : String
  encryptedContent : String
  iv : String
  encryptedKey : String
  createdAt : Nat
deriving DecidableEq, Repr

/-- The field renaming done by the service map callbacks. -/
def toView (r : JoinedRow) : MessageView :=
  ⟨r.id, r.sender_id, r.sender_username, r.encrypted_content, r.encryption_iv,
    r.encrypted_key, r.created_at⟩

/-- getMessagesForUser from messageService.js: fetch the undelivered
rows once, mark each fetched row delivered, return the views. -/
def getMessagesForUser (db : Db) (userId : Nat) : List MessageView × Db :=
  let msgs := dbGetUndeliveredForUserE2E db userId
  let db2 := msgs.foldl (fun acc m => dbMarkDelivered acc m.id userId) db
  (msgs.map toView, db2)

/-- The result shape of getMessageHistory. -/
structure HistoryResult where
  messages : List MessageView
  total : Nat
  page : Int
  pageSize : Int
deriving DecidableEq, Repr

/-- getMessageHistory from messageService.js: a pure read returning the
page parameters verbatim. -/
def getMessageHistory (db : Db) (userId : Nat) (page pageSize : Int) : HistoryResult :=
  ⟨(dbGetMessageHistoryForUser db userId page pageSize).1.map toView,
    (dbGetMessageHistoryForUser db userId page pageSize).2, page, pageSize⟩

/-- The GET /api/messages/history handler (routes/messages.js lines
71-84): parse the query, delegate to getMessageHistory. -/
def historyHandler (db : Db) (userId : Nat) (qPage qPageSize : Option String) :
    HistoryResult :=
  getMessageHistory db userId (historyPage qPage) (historyPageSize qPageSize)

/-- The broadcastData record built by createMessage. -/
structure BroadcastData where
  id : Nat
  senderId : Nat
  senderUsername : String
  encryptedContent : String
  iv : String
  createdAt : Nat
deriving DecidableEq, Repr

/-- The keyMap lookup of broadcastToClientsE2E (a JS Map built by
successive set calls, so a later duplicate entry wins). -/
def keyLookup (keys : List (Nat × String)) (u : Nat) : Option String :=
  (keys.reverse.find? (fun p => p.1 == u)).map Prod.snd

/-- The payload sent to one waiting client by broadcastToClientsE2E. -/
def broadcastPayload (md : BroadcastData) (k : String) : MessageView :=
  ⟨md.id, md.senderId, md.senderUsername, md.encryptedContent, md.iv, k, md.createdAt⟩

/-- Result of a broadcast: the store, the surviving waiting registry,
the clients that were actually served and the delivered counter. -/
structure BroadcastResult where
  db : Db
  waiting : List Nat
  served : List (Nat × MessageView)
  deliveredCount : Nat

/-- The loop of broadcastToClientsE2E over the waiting registry: the
sender and users without a wrapped key are skipped (and stay
registered); otherwise the pending response is resolved (the resolves
oracle says whether res.json succeeds), the client is removed either
way, and mark-delivered runs only after a successful resolution. -/
def broadcastGo (resolves : Nat → Bool) (md : BroadcastData)
    (keys : List (Nat × String)) : Db → List Nat → BroadcastResult
  | db, [] => ⟨db, [], [], 0⟩
  | db, u :: rest =>
    if u == md.senderId then
      let r := broadcastGo resolves md keys db rest
      ⟨r.db, u :: r.waiting, r.served, r.deliveredCount⟩
    else
      match keyLookup keys u with
      | none =>
        let r := broadcastGo resolves md keys db rest
        ⟨r.db, u :: r.waiting, r.served, r.deliveredCount⟩
      | some k =>
        if resolves u then
          let db2 := dbMarkDelivered db md.id u
          let r := broadcastGo resolves md keys db2 rest
          ⟨r.db, r.waiting, (u, broadcastPayload md k) :: r.served, r.deliveredCount + 1⟩
        else
          let r := broadcastGo resolves md keys db rest
          ⟨r.db, r.waiting, r.served, r.deliveredCount⟩

/-- broadcastToClientsE2E from messageService.js. -/
def broadcastToClientsE2E (db : Db) (waiting : List Nat) (resolves : Nat → Bool)
    (md : BroadcastData) (keys : List (Nat × String)) : BroadcastResult :=
  broadcastGo resolves md keys db waiting

/-- The users whose delivery rows one broadcast marks: waiting, not the
sender, having a wrapped key, and with a successfully resolved
response. -/
def bcastCond (resolves : Nat → Bool) (md : BroadcastData) (keys : List (Nat × String))
    (waiting : List Nat) : Nat → Nat → Bool :=
  fun mi ui =>
    mi == md.id && waiting.contains ui && !(ui == md.senderId)
      && (keyLookup keys ui).isSome && resolves ui

/-- The registry entries one broadcast leaves in place: the sender and
the users without a wrapped key. -/
def bcastKeeps (md : BroadcastData) (keys : List (Nat × String)) (u : Nat) : Bool :=
  u == md.senderId || !(keyLookup keys u).isSome

/-- The value createMessage returns (no plaintext, no ciphertext). -/
structure CreateResult where
  id : Nat
  senderId : Nat
  senderUsername : String
  createdAt : Nat
deriving DecidableEq, Repr

/-- Observable events inside one createMessage call, in source order. -/
inductive CmEvent
  | persistMessage (id : Nat)
  | persistDelivery (messageId userId : Nat)
  | markSenderDelivered (messageId senderId : Nat)
  | broadcastAttempt (messageId : Nat)
  | returnResult
deriving DecidableEq, Repr

/-- The persistence events of a createMessage call. -/
def isPersistEv : CmEvent → Bool
  | .persistMessage _ => true
  | .persistDelivery _ _ => true
  | .markSenderDelivered _ _ => true
  | _ => false

/-- Lines 14-22 of messageService.js createMessage: persist the message
row, one delivery row per keys entry, then mark the sender delivery. -/
def persistPhase (db : Db) (senderId : Nat) (content iv : String)
    (keys : List (Nat × String)) : MessageRow × Db :=
  let (row, db1) := dbCreateMessage db senderId content iv
  let db2 := keys.foldl (fun acc p => dbCreateDeliveryWithKey acc row.id p.1 p.2) db1
  (row, dbMarkDelivered db2 row.id senderId)

/-- createMessage from messageService.js: persistence phase, then the
broadcast attempt, then the return value; the event list records the
order in which the source performs these effects. -/
def createMessage (db : Db) (waiting : List Nat) (resolves : Nat → Bool)
    (senderId : Nat) (senderUsername : String) (content iv : String)
    (keys : List (Nat × String)) :
    CreateResult × Db × List Nat × List CmEvent :=
  let (row, db3) := persistPhase db senderId content iv keys
  let bd : BroadcastData :=
    ⟨row.id, senderId, senderUsername, content, iv, row.created_at⟩
  let out := broadcastToClientsE2E db3 waiting resolves bd keys
  (⟨row.id, senderId, senderUsername, row.created_at⟩, out.db, out.waiting,
    (CmEvent.persistMessage row.id
        :: keys.map (fun p => CmEvent.persistDelivery row.id p.1)
      ++ [CmEvent.markSenderDelivered row.id senderId])
      ++ [CmEvent.broadcastAttempt row.id, CmEvent.returnResult])

-- ── Service-level state machine (delivery lifecycle, claims C2) ──

/-- registerPollingClient on the registry key set: a superseding poll
replaces the existing entry of the same user. -/
def registerClient (w : List Nat) (u : Nat) : List Nat :=
  w.filter (fun x => !(x == u)) ++ [u]

/-- The process state: the store plus the long-poll registry keys. -/
structure St where
  db : Db
  waiting : List Nat

/-- The service operations that touch the store or the registry, at the
granularity at which the single-threaded server makes states
observable. -/
inductive Op
  | poll (userId : Nat)
  | history (userId : Nat) (page pageSize : Int)
  | send (senderId : Nat) (senderUsername : String) (content iv : String)
      (keys : List (Nat × String)) (resolves : Nat → Bool)
  | register (userId : Nat)
  | remove (userId : Nat)

/-- One service operation: the poll route first drains undelivered
messages and registers the client only when there were none; history is
a pure read; send is createMessage including its broadcast. -/
def step (s : St) : Op → St
  | .poll u =>
    let (msgs, db2) := getMessagesForUser s.db u
    if msgs.isEmpty then ⟨db2, registerClient s.waiting u⟩ else ⟨db2, s.waiting⟩
  | .history _ _ _ => s
  | .send sid su c iv keys resolves =>
    let r := createMessage s.db s.waiting resolves sid su c iv keys
    ⟨r.2.1, r.2.2.1⟩
  | .register u => ⟨s.db, registerClient s.waiting u⟩
  | .remove u => ⟨s.db, s.waiting.filter (fun x => !(x == u))⟩

/-- A run of service operations. -/
def runOps (s : St) (ops : List Op) : St := ops.foldl step s

/-- The state after the first k operations of a run. -/
def stAt (s0 : St) (ops : List Op) (k : Nat) : St := runOps s0 (ops.take k)

/-- A delivery row for the (message, user) pair exists. -/
def rowExists (db : Db) (m u : Nat) : Bool :=
  db.deliveries.any (fun d => d.message_id == m && d.user_id == u)

/-- A delivery row for the (message, user) pair exists and is
delivered. -/
def rowDelivered (db : Db) (m u : Nat) : Bool :=
  db.deliveries.any (fun d => d.message_id == m && d.user_id == u && d.delivered)

/-- Store well-formedness: delivery rows reference only already
allocated message identifiers. -/
def WfDb (db : Db) : Prop :=
  ∀ d ∈ db.deliveries, d.message_id < db.nextId

/-- The delivered flag of the (message, user) row flips from false to
true across operation k of the run. -/
def transAt (s0 : St) (ops : List Op) (m u : Nat) (k : Nat) : Prop :=
  rowExists (stAt s0 ops k).db m u = true ∧
  rowDelivered (stAt s0 ops k).db m u = false ∧
  rowDelivered (stAt s0 ops (k + 1)).db m u = true

-- ── Message rendering (frontend/src/hooks/useMessages.js) ──

/-- The decrypted message record rendered by the chat UI. -/
structure RenderedMsg where
  id : Nat
  senderId : Nat
  senderUsername : String
  content : String
  createdAt : Nat
deriving DecidableEq, Repr

/-- The literal placeholder content of an undecryptable message. -/
def unableToDecryptText : String := "[Unable to decrypt]"

/-- decryptMsg from useMessages.js: try decryptMessage on the four
fields (the dec oracle covers the whole crypto call, none modelling a
thrown error, and the private key slot may be empty); on failure the
record carries the placeholder content verbatim. -/
def decryptMsg (dec : String → String → String → Option String → Option String)
    (privateKey : Option String) (m : MessageView) : RenderedMsg :=
  match dec m.encryptedContent m.iv m.encryptedKey privateKey with
  | some content => ⟨m.id, m.senderId, m.senderUsername, content, m.createdAt⟩
  | none => ⟨m.id, m.senderId, m.senderUsername, unableToDecryptText, m.createdAt⟩

/-- handleNewMessages from useMessages.js: decrypt every batch entry in
order, then append the entries whose id is not already rendered. -/
def handleNewMessages (dec : String → String → String → Option String → Option String)
    (privateKey : Option String) (prev : List RenderedMsg)
    (batch : List MessageView) : List RenderedMsg :=
  let decryptedNew := batch.map (decryptMsg dec privateKey)
  let existingIds := prev.map (fun m => m.id)
  let unique := decryptedNew.filter (fun m => !(existingIds.contains m.id))
  if unique.isEmpty then prev else prev ++ unique

-- ── Concrete oracle instances (used by the witnesses) ──

/-- A concrete RSA oracle on transparent ciphertexts: encryption tags
the data with the key pair name and the nonce; decryption checks the
key pair name. It satisfies the RSA-OAEP contract hypotheses. -/
def toyRsa : RsaPrims (Nat × Nat × List Nat) :=
  ⟨fun kp n d => (kp, n, d),
   fun kp c => if c.1 = kp then some c.2.2 else none⟩

/-- A concrete AES oracle on transparent ciphertexts: encryption tags
the plaintext with key and IV; decryption checks both. It satisfies the
AES-CBC contract hypotheses. -/
def toyAes : AesPrims (String × String × String) :=
  ⟨fun key iv pt => (key, iv, pt),
   fun c iv key => if c.1 = key ∧ c.2.1 = iv then some c.2.2 else none⟩

/-- A concrete key-derivation oracle: collision-free in the password for
a fixed salt. -/
def toyKdf (password saltHex : String) : String := password ++ ":" ++ saltHex

-- ═══════════════════════ Theorems ═══════════════════════

-- ── Storage lemmas ──

theorem storeGet_storeRemove_ne (s : Store) (k k0 : String) (h : k ≠ k0) :
    storeGet (storeRemove s k0) k = storeGet s k := by
  induction s with
  | nil => rfl
  | cons p rest ih =>
    obtain ⟨pk, pv⟩ := p
    by_cases hp : pk = k0
    · have hpk : ¬ pk = k := fun hh => h (hh.symm.trans hp)
      rw [show storeRemove ((pk, pv) :: rest) k0 = storeRemove rest k0 from by
        simp [storeRemove, hp]]
      rw [ih]
      show storeGet rest k = if pk = k then some pv else storeGet rest k
      rw [if_neg hpk]
    · rw [show storeRemove ((pk, pv) :: rest) k0 = (pk, pv) :: storeRemove rest k0 from by
        simp [storeRemove, hp]]
      show (if pk = k then some pv else storeGet (storeRemove rest k0) k)
        = if pk = k then some pv else storeGet rest k
      split
      · rfl
      · exact ih

theorem storeGet_storeRemove_self (s : Store) (k0 : String) :
    storeGet (storeRemove s k0) k0 = none := by
  induction s with
  | nil => rfl
  | cons p rest ih =>
    obtain ⟨pk, pv⟩ := p
    by_cases hp : pk = k0
    · rw [show storeRemove ((pk, pv) :: rest) k0 = storeRemove rest k0 from by
        simp [storeRemove, hp]]
      exact ih
    · rw [show storeRemove ((pk, pv) :: rest) k0 = (pk, pv) :: storeRemove rest k0 from by
        simp [storeRemove, hp]]
      show (if pk = k0 then some pv else storeGet (storeRemove rest k0) k0) = none
      rw [if_neg hp]
      exact ih

/-- Claim C10: clearAuth removes exactly the three fixed storage slots
and leaves every other storage key unchanged; afterwards getToken,
getUser and getPrivateKey all return an absent value. -/
theorem clearAuth_frame (s : Store) (k : String)
    (h1 : k ≠ TOKEN_KEY) (h2 : k ≠ USER_KEY) (h3 : k ≠ PRIVATE_KEY_SLOT) :
    storeGet (clearAuth s) k = storeGet s k ∧
    getToken (clearAuth s) = none ∧
    getPrivateKey (clearAuth s) = none ∧
    ∀ (Json : Type) (parse : String → Option Json), getUser parse (clearAuth s) = none := by
  unfold clearAuth removeToken removeUser removePrivateKey
  refine ⟨?_, ?_, ?_, ?_⟩
  · rw [storeGet_storeRemove_ne _ _ _ h3, storeGet_storeRemove_ne _ _ _ h2,
      storeGet_storeRemove_ne _ _ _ h1]
  · unfold getToken
    rw [storeGet_storeRemove_ne _ _ _ (by decide), storeGet_storeRemove_ne _ _ _ (by decide)]
    exact storeGet_storeRemove_self _ _
  · exact storeGet_storeRemove_self _ _
  · intro Json parse
    unfold getUser
    rw [storeGet_storeRemove_ne _ _ _ (by decide), storeGet_storeRemove_self _ _]

/-- Witness for C10 at a concrete store. -/
theorem clearAuth_frame_witness :
    storeGet (clearAuth [("other", "v"), (TOKEN_KEY, "t"), (PRIVATE_KEY_SLOT, "p")]) "other"
        = storeGet [("other", "v"), (TOKEN_KEY, "t"), (PRIVATE_KEY_SLOT, "p")] "other" ∧
    getToken (clearAuth [("other", "v"), (TOKEN_KEY, "t"), (PRIVATE_KEY_SLOT, "p")]) = none ∧
    getPrivateKey (clearAuth [("other", "v"), (TOKEN_KEY, "t"), (PRIVATE_KEY_SLOT, "p")]) = none ∧
    getUser (fun _ => some ()) (clearAuth [("other", "v"), (TOKEN_KEY, "t"), (PRIVATE_KEY_SLOT, "p")]) = none := by
  have h := clearAuth_frame [("other", "v"), (TOKEN_KEY, "t"), (PRIVATE_KEY_SLOT, "p")]
    "other" (by decide) (by decide) (by decide)
  exact ⟨h.1, h.2.1, h.2.2.1, h.2.2.2 Unit (fun _ => some ())⟩

-- ── Login (claim C5) ──

/-- Claim C5: loginUser fails with status 401 and the identical message
string for both a non-existent username and a password mismatch, and
every failure it produces is that one value, revealing nothing about
which condition occurred. -/
theorem loginUser_uniform_401 {Token : Type} (users : List DbUser)
    (checkPw : String → String → Bool) (sign : Nat → String → Token)
    (username password : String) :
    (findUserByUsername users username = none →
      loginUser users checkPw sign username password = .failure 401 invalidCredsMsg) ∧
    (∀ u, findUserByUsername users username = some u →
      checkPw password u.password_hash = false →
      loginUser users checkPw sign username password = .failure 401 invalidCredsMsg) ∧
    (∀ st msg, loginUser users checkPw sign username password = .failure st msg →
      st = 401 ∧ msg = invalidCredsMsg) := by
  refine ⟨?_, ?_, ?_⟩
  · intro h
    unfold loginUser
    rw [h]
  · intro u h hc
    unfold loginUser
    rw [h]
    simp [hc]
  · intro st msg h
    unfold loginUser at h
    cases hf : findUserByUsername users username with
    | none =>
      rw [hf] at h
      cases h
      exact ⟨rfl, rfl⟩
    | some u =>
      rw [hf] at h
      by_cases hc : checkPw password u.password_hash
      · simp [hc] at h
      · simp [hc] at h
        exact ⟨h.1.symm, h.2.symm⟩

/-- Witness for C5: the unknown-user failure and the wrong-password
failure at concrete inputs are the same 401 value. -/
theorem loginUser_uniform_401_witness :
    @loginUser Unit [⟨1, "alice", "hash", none, none⟩]
        (fun _ _ => false) (fun _ _ => ()) "bob" "pw" = .failure 401 invalidCredsMsg ∧
    @loginUser Unit [⟨1, "alice", "hash", none, none⟩]
        (fun _ _ => false) (fun _ _ => ()) "alice" "pw" = .failure 401 invalidCredsMsg := by
  refine ⟨?_, ?_⟩
  · exact (loginUser_uniform_401 [⟨1, "alice", "hash", none, none⟩]
      (fun _ _ => false) (fun _ _ => ()) "bob" "pw").1 (by decide)
  · exact (loginUser_uniform_401 [⟨1, "alice", "hash", none, none⟩]
      (fun _ _ => false) (fun _ _ => ()) "alice" "pw").2.1
      ⟨1, "alice", "hash", none, none⟩ (by decide) rfl

-- ── History pagination (claim C7) ──

/-- Counterexample for C7: the query string pageSize=0 parses to 0, so
the claim reading (floored at 1) gives 1, but the route serves the
default 50 because the JS falsy-default applies before the floor. -/
theorem historyPageSize_claim_cex :
    parseQuery (some "0") = some 0 ∧
    claimPageSize (some "0") = 1 ∧
    historyPageSize (some "0") = 50 ∧
    (historyHandler ⟨[], [], [], 1, 0⟩ 1 none (some "0")).pageSize = 50 ∧
    (50 : Int) ≠ 1 := by
  refine ⟨by decide, by decide, by decide, by decide, by decide⟩

/-- Claim C7 amended: page behaves exactly as claimed; pageSize behaves
as claimed except that a parsed value of 0 falls back to the default 50
instead of being floored to 1; pageSize=500 is served as 100. -/
theorem historyParams_amended (qPage qPageSize : Option String) (db : Db) (userId : Nat) :
    historyPage qPage = claimPage qPage ∧
    historyPageSize qPageSize = amendedPageSize qPageSize ∧
    (historyHandler db userId qPage qPageSize).page = claimPage qPage ∧
    (historyHandler db userId qPage qPageSize).pageSize = amendedPageSize qPageSize ∧
    (historyHandler db userId qPage (some "500")).pageSize = 100 := by
  have hp : historyPage qPage = claimPage qPage := by
    unfold historyPage claimPage jsOrDefault
    cases hq : parseQuery qPage with
    | none => dsimp only; omega
    | some v =>
      dsimp only
      by_cases hv : v = 0
      · rw [if_pos hv, hv]
        omega
      · rw [if_neg hv]
  have hs : historyPageSize qPageSize = amendedPageSize qPageSize := by
    unfold historyPageSize amendedPageSize jsOrDefault
    cases hq : parseQuery qPageSize with
    | none =>
      dsimp only
      simp only [maxPageSize, defaultPageSize]
      omega
    | some v =>
      dsimp only
      by_cases hv : v = 0
      · rw [if_pos hv, if_pos hv]
        simp only [maxPageSize, defaultPageSize]
        omega
      · rw [if_neg hv, if_neg hv]
        simp only [maxPageSize, defaultPageSize]
        omega
  refine ⟨hp, hs, ?_, ?_, ?_⟩
  · show historyPage qPage = claimPage qPage
    exact hp
  · show historyPageSize qPageSize = amendedPageSize qPageSize
    exact hs
  · show historyPageSize (some "500") = 100
    decide

-- ── Send-route validation (claim C6) ──

/-- Counterexample for C6: a body whose encryptedContent is present but
empty passes every check the claim lists, yet the handler rejects it
with 400 instead of delegating, because the JS presence check uses
truthiness. -/
theorem sendHandler_claim_cex :
    claimSendChecksPass cexSendBody = true ∧
    sendHandler 7 "alice" cexSendBody = .badRequest missingFieldsMsg ∧
    sendHandler 7 "alice" cexSendBody
      ≠ .created 7 "alice" "" "aa" [⟨some 1, some "k"⟩] := by
  refine ⟨by decide, by decide, by decide⟩

theorem valid_iff_gates (b : SendBody) :
    validSendBody b = true ↔
      sendGate1 b = false ∧ sendGate2 b = false ∧ sendGate3 b = false := by
  obtain ⟨c, iv, ks⟩ := b
  cases ks with
  | absent =>
    simp [validSendBody, sendGate1, sendGate2, sendGate3, keysTruthy, keysIsArray, keysEntries]
  | notArray =>
    simp [validSendBody, sendGate1, sendGate2, sendGate3, keysTruthy, keysIsArray, keysEntries]
  | arr l =>
    simp [validSendBody, sendGate1, sendGate2, sendGate3, keysTruthy, keysIsArray, keysEntries,
      List.isEmpty_iff, List.length_eq_zero, List.all_eq_true, List.any_eq_false, not_lt, not_or]
    tauto

/-- Claim C6 amended: the send handler returns 400 for a missing (or
JS-falsy) encryptedContent, iv or keys value, a non-array or empty
keys, or an entry lacking (or with a falsy) userId or encryptedKey;
after those checks pass, 400 with the too-long message for content over
20000 characters; and it delegates to createMessage with a 201 exactly
for the JS-truthy-valid bodies. -/
theorem sendHandler_amended (userId : Nat) (username : String) (b : SendBody) :
    (b.encryptedContent = none → sendHandler userId username b = .badRequest missingFieldsMsg) ∧
    (b.iv = none → sendHandler userId username b = .badRequest missingFieldsMsg) ∧
    (keysIsArray b.keys = false → sendHandler userId username b = .badRequest missingFieldsMsg) ∧
    (keysEntries b.keys = [] → sendHandler userId username b = .badRequest missingFieldsMsg) ∧
    ((∃ e ∈ keysEntries b.keys, e.userId = none ∨ e.encryptedKey = none) →
      ∃ msg, sendHandler userId username b = .badRequest msg) ∧
    (sendGate1 b = false → sendGate2 b = false → sendGate3 b = true →
      sendHandler userId username b = .badRequest tooLongMsg) ∧
    (validSendBody b = true →
      sendHandler userId username b
        = .created userId username (jsStr b.encryptedContent) (jsStr b.iv) (keysEntries b.keys)) ∧
    (validSendBody b = false → ∃ msg, sendHandler userId username b = .badRequest msg) := by
  have hgate1 : sendGate1 b = true → sendHandler userId username b = .badRequest missingFieldsMsg := by
    intro h
    simp [sendHandler, h]
  refine ⟨?_, ?_, ?_, ?_, ?_, ?_, ?_, ?_⟩
  · intro h
    exact hgate1 (by simp [sendGate1, h, truthyStr])
  · intro h
    exact hgate1 (by simp [sendGate1, h, truthyStr])
  · intro h
    exact hgate1 (by simp [sendGate1, h])
  · intro h
    exact hgate1 (by simp [sendGate1, h])
  · rintro ⟨e, he, hlack⟩
    cases hg1 : sendGate1 b with
    | true => exact ⟨missingFieldsMsg, hgate1 hg1⟩
    | false =>
      have hg2 : sendGate2 b = true := by
        unfold sendGate2
        rw [List.any_eq_true]
        refine ⟨e, he, ?_⟩
        rcases hlack with h | h
        · simp [truthyNum, h]
        · simp [truthyStr, h]
      exact ⟨badKeyEntryMsg, by simp [sendHandler, hg1, hg2]⟩
  · intro h1 h2 h3
    simp [sendHandler, h1, h2, h3]
  · intro hv
    obtain ⟨g1, g2, g3⟩ := (valid_iff_gates b).mp hv
    simp [sendHandler, g1, g2, g3]
  · intro hv
    cases hg1 : sendGate1 b with
    | true => exact ⟨missingFieldsMsg, hgate1 hg1⟩
    | false =>
      cases hg2 : sendGate2 b with
      | true => exact ⟨badKeyEntryMsg, by simp [sendHandler, hg1, hg2]⟩
      | false =>
        cases hg3 : sendGate3 b with
        | true => exact ⟨tooLongMsg, by simp [sendHandler, hg1, hg2, hg3]⟩
        | false =>
          exfalso
          rw [(valid_iff_gates b).mpr ⟨hg1, hg2, hg3⟩] at hv
          cases hv

/-- Witness for the amended C6 at concrete bodies: a valid body is
delegated with 201, a body with a missing iv is rejected. -/
theorem sendHandler_amended_witness :
    sendHandler 7 "alice" ⟨some "aa", some "bb", .arr [⟨some 1, some "k"⟩]⟩
      = .created 7 "alice" "aa" "bb" [⟨some 1, some "k"⟩] ∧
    sendHandler 7 "alice" ⟨some "aa", none, .arr [⟨some 1, some "k"⟩]⟩
      = .badRequest missingFieldsMsg := by
  constructor
  · exact (sendHandler_amended 7 "alice" ⟨some "aa", some "bb", .arr [⟨some 1, some "k"⟩]⟩).2.2.2.2.2.2.1
      (by decide)
  · exact (sendHandler_amended 7 "alice" ⟨some "aa", none, .arr [⟨some 1, some "k"⟩]⟩).2.1 rfl

-- ── Decryption failure isolation (claim C8) ──

theorem listGetD_map {α β : Type} (f : α → β) (d : α) :
    ∀ (l : List α) (i : Nat), (l.map f).getD i (f d) = f (l.getD i d)
  | [], _ => rfl
  | _ :: _, 0 => rfl
  | _ :: rest, i + 1 => listGetD_map f d rest i

/-- Claim C8: each batch message is decrypted independently, a failing
message renders with the literal placeholder content, a succeeding one
with its plaintext, and the batch handler appends the per-message
results of the whole batch (minus already-rendered ids), so one failure
never aborts or alters the processing of the rest. -/
theorem decryptFailureIsolation
    (dec : String → String → String → Option String → Option String)
    (privateKey : Option String) (prev : List RenderedMsg) (batch : List MessageView) :
    (batch.map (decryptMsg dec privateKey)).length = batch.length ∧
    (∀ (i : Nat) (dflt : MessageView),
      (batch.map (decryptMsg dec privateKey)).getD i (decryptMsg dec privateKey dflt)
        = decryptMsg dec privateKey (batch.getD i dflt)) ∧
    (∀ m : MessageView, dec m.encryptedContent m.iv m.encryptedKey privateKey = none →
      decryptMsg dec privateKey m
        = ⟨m.id, m.senderId, m.senderUsername, unableToDecryptText, m.createdAt⟩) ∧
    (∀ (m : MessageView) (c : String),
      dec m.encryptedContent m.iv m.encryptedKey privateKey = some c →
      decryptMsg dec privateKey m = ⟨m.id, m.senderId, m.senderUsername, c, m.createdAt⟩) ∧
    handleNewMessages dec privateKey prev batch
      = prev ++ (batch.map (decryptMsg dec privateKey)).filter
          (fun m => !((prev.map (fun x => x.id)).contains m.id)) := by
  refine ⟨List.length_map _ _, ?_, ?_, ?_, ?_⟩
  · intro i dflt
    exact listGetD_map (decryptMsg dec privateKey) dflt batch i
  · intro m h
    unfold decryptMsg
    rw [h]
  · intro m c h
    unfold decryptMsg
    rw [h]
  · unfold handleNewMessages
    cases he : ((batch.map (decryptMsg dec privateKey)).filter
        (fun m => !((prev.map (fun x => x.id)).contains m.id))).isEmpty with
    | true =>
      rw [if_pos]
      · rw [List.isEmpty_iff.mp he, List.append_nil]
      · exact he
    | false =>
      rw [if_neg]
      intro hcontra
      rw [hcontra] at he
      cases he

/-- Witness for C8: in a two-message batch whose second message fails
to decrypt, the first renders with its plaintext and the second with
the placeholder. -/
theorem decryptFailureIsolation_witness :
    decryptMsg (fun c _ _ _ => if c = "bad" then none else some "hello") none
        ⟨2, 5, "bob", "bad", "iv2", "k2", 9⟩
      = ⟨2, 5, "bob", unableToDecryptText, 9⟩ ∧
    handleNewMessages (fun c _ _ _ => if c = "bad" then none else some "hello") none []
        [⟨1, 4, "ann", "good", "iv1", "k1", 8⟩, ⟨2, 5, "bob", "bad", "iv2", "k2", 9⟩]
      = [⟨1, 4, "ann", "hello", 8⟩, ⟨2, 5, "bob", unableToDecryptText, 9⟩] := by
  constructor
  · exact (decryptFailureIsolation (fun c _ _ _ => if c = "bad" then none else some "hello")
      none [] []).2.2.1 ⟨2, 5, "bob", "bad", "iv2", "k2", 9⟩ (by decide)
  · rw [(decryptFailureIsolation (fun c _ _ _ => if c = "bad" then none else some "hello")
      none [] [⟨1, 4, "ann", "good", "iv1", "k1", 8⟩, ⟨2, 5, "bob", "bad", "iv2", "k2", 9⟩]).2.2.2.2]
    decide

-- ── Hex codec lemmas ──

theorem hexChar_inv (c : Char) (h : isLowerHexDigit c = true) :
    natToHexDigitChar (hexDigitVal c) = c ∧ hexDigitVal c < 16 := by
  have hc : (48 ≤ c.toNat ∧ c.toNat ≤ 57) ∨ (97 ≤ c.toNat ∧ c.toNat ≤ 102) := by
    simpa [isLowerHexDigit, between, Bool.or_eq_true, Bool.and_eq_true,
      decide_eq_true_eq] using h
  rcases hc with ⟨h1, h2⟩ | ⟨h1, h2⟩
  · have hv : hexDigitVal c = c.toNat - 48 := by
      unfold hexDigitVal
      rw [if_pos (by omega : c.toNat ≤ 57)]
    rw [hv]
    refine ⟨?_, by omega⟩
    unfold natToHexDigitChar
    rw [if_pos (by omega : c.toNat - 48 < 10),
      show 48 + (c.toNat - 48) = c.toNat from by omega]
    exact Char.ofNat_toNat c
  · have hv : hexDigitVal c = c.toNat - 87 := by
      unfold hexDigitVal
      rw [if_neg (by omega : ¬ c.toNat ≤ 57), if_neg (by omega : ¬ c.toNat ≤ 70)]
    rw [hv]
    refine ⟨?_, by omega⟩
    unfold natToHexDigitChar
    rw [if_neg (by omega : ¬ c.toNat - 87 < 10),
      show 87 + (c.toNat - 87) = c.toNat from by omega]
    exact Char.ofNat_toNat c

theorem byteToHex_pair (c1 c2 : Char)
    (h1 : isLowerHexDigit c1 = true) (h2 : isLowerHexDigit c2 = true) :
    byteToHexL (16 * hexDigitVal c1 + hexDigitVal c2) = [c1, c2] := by
  obtain ⟨e1, l1⟩ := hexChar_inv c1 h1
  obtain ⟨e2, l2⟩ := hexChar_inv c2 h2
  unfold byteToHexL
  by_cases hb : 16 * hexDigitVal c1 + hexDigitVal c2 < 16
  · rw [if_pos hb]
    have hv1 : hexDigitVal c1 = 0 := by omega
    have hsum : 16 * hexDigitVal c1 + hexDigitVal c2 = hexDigitVal c2 := by omega
    have h0 : natToHexDigitChar 0 = '0' := by decide
    rw [hv1, h0] at e1
    rw [hsum, e2, ← e1]
  · rw [if_neg hb]
    have hdiv : (16 * hexDigitVal c1 + hexDigitVal c2) / 16 = hexDigitVal c1 := by omega
    have hmod : (16 * hexDigitVal c1 + hexDigitVal c2) % 16 = hexDigitVal c2 := by omega
    rw [hdiv, hmod, e1, e2]

theorem bytesToHex_hexToBytes :
    ∀ l : List Char, l.length % 2 = 0 → (∀ c ∈ l, isLowerHexDigit c = true) →
      bytesToHexL (hexToBytesL l) = l
  | [], _, _ => rfl
  | [c], h, _ => by simp at h
  | c1 :: c2 :: rest, h, hx => by
    have ih := bytesToHex_hexToBytes rest
      (by simp only [List.length_cons] at h; omega)
      (fun c hc => hx c (by simp [hc]))
    show byteToHexL (16 * hexDigitVal c1 + hexDigitVal c2) ++ bytesToHexL (hexToBytesL rest)
      = c1 :: c2 :: rest
    rw [byteToHex_pair c1 c2 (hx c1 (by simp)) (hx c2 (by simp)), ih]
    rfl

-- ── Hybrid E2E round trip (claim C1) ──

theorem wrapKeys_length {RsaCt : Type} (R : RsaPrims RsaCt) (nonce : Nat → Nat)
    (bytes : List Nat) :
    ∀ (recips : List Recipient) (i0 : Nat),
      (wrapKeys R nonce bytes i0 recips).length = recips.length
  | [], _ => rfl
  | _ :: rest, i0 => by
    simp only [wrapKeys, List.length_cons, wrapKeys_length R nonce bytes rest (i0 + 1)]

theorem wrapKeys_getElem {RsaCt : Type} (R : RsaPrims RsaCt) (nonce : Nat → Nat)
    (bytes : List Nat) :
    ∀ (recips : List Recipient) (i0 j : Nat) (hj : j < recips.length),
      (wrapKeys R nonce bytes i0 recips)[j]?
        = some ⟨(recips.get ⟨j, hj⟩).userId,
            R.enc (recips.get ⟨j, hj⟩).publicKey (nonce (i0 + j)) bytes⟩
  | r :: rest, i0, 0, _ => by
    simp [wrapKeys]
  | r :: rest, i0, j + 1, hj => by
    have ih := wrapKeys_getElem R nonce bytes rest (i0 + 1) j (by simpa using hj)
    have harith : i0 + 1 + j = i0 + (j + 1) := by omega
    simp only [wrapKeys, List.getElem?_cons_succ]
    rw [ih, harith]
    rfl

/-- Claim C1: encryptMessageForRecipients yields one wrapped key per
recipient carrying that recipient userId; decryptMessage with any
recipient specific wrapped key and matching private key recovers the
plaintext; two distinct recipients receive unequal wrapped keys. The
hypotheses are the RSA-OAEP / AES-CBC library contracts, the freshness
of the per-call OAEP randomness, and the hex well-formedness of the
generated AES key. -/
theorem hybridRoundTrip {RsaCt AesCt : Type}
    (R : RsaPrims RsaCt) (A : AesPrims AesCt) (rand : RandomTape)
    (plaintext : String) (recipients : List Recipient)
    (hRsa : ∀ kp n d, R.dec kp (R.enc kp n d) = some d)
    (hInj : ∀ kp kp2 n n2 d d2, R.enc kp n d = R.enc kp2 n2 d2 → n = n2)
    (hAes : ∀ key iv pt, A.dec (A.enc key iv pt) iv key = some pt)
    (hNon : Function.Injective rand.nonce)
    (hLen : rand.aesKeyHex.data.length % 2 = 0)
    (hHex : ∀ c ∈ rand.aesKeyHex.data, isLowerHexDigit c = true) :
    (encryptMessageForRecipients R A rand plaintext recipients).keys.length
        = recipients.length ∧
    (∀ (i : Nat) (hi : i < recipients.length) (wk : WrappedKey RsaCt),
      (encryptMessageForRecipients R A rand plaintext recipients).keys[i]? = some wk →
      wk.userId = (recipients.get ⟨i, hi⟩).userId ∧
      decryptMessage R A
          (encryptMessageForRecipients R A rand plaintext recipients).encryptedContent
          (encryptMessageForRecipients R A rand plaintext recipients).iv
          wk.encryptedKey (recipients.get ⟨i, hi⟩).publicKey = some plaintext) ∧
    (∀ (i j : Nat) (hi : i < recipients.length) (hj : j < recipients.length)
        (wki wkj : WrappedKey RsaCt), i ≠ j →
      (encryptMessageForRecipients R A rand plaintext recipients).keys[i]? = some wki →
      (encryptMessageForRecipients R A rand plaintext recipients).keys[j]? = some wkj →
      wki.encryptedKey ≠ wkj.encryptedKey) := by
  have hkeys : (encryptMessageForRecipients R A rand plaintext recipients).keys
      = wrapKeys R rand.nonce (hexToBytesL rand.aesKeyHex.data) 0 recipients := rfl
  have hhex : bytesToHexL (hexToBytesL rand.aesKeyHex.data) = rand.aesKeyHex.data :=
    bytesToHex_hexToBytes rand.aesKeyHex.data hLen hHex
  refine ⟨?_, ?_, ?_⟩
  · rw [hkeys, wrapKeys_length]
  · intro i hi wk hwk
    rw [hkeys, wrapKeys_getElem R rand.nonce _ recipients 0 i hi] at hwk
    have hwk2 := Option.some.inj hwk
    subst hwk2
    refine ⟨rfl, ?_⟩
    show decryptMessage R A (A.enc rand.aesKeyHex rand.ivHex plaintext) rand.ivHex
      (R.enc (recipients.get ⟨i, hi⟩).publicKey (rand.nonce (0 + i))
        (hexToBytesL rand.aesKeyHex.data))
      (recipients.get ⟨i, hi⟩).publicKey = some plaintext
    unfold decryptMessage
    rw [hRsa]
    show A.dec (A.enc rand.aesKeyHex rand.ivHex plaintext) rand.ivHex
      (String.mk (bytesToHexL (hexToBytesL rand.aesKeyHex.data))) = some plaintext
    rw [hhex]
    exact hAes _ _ _
  · intro i j hi hj wki wkj hij hwi hwj
    rw [hkeys, wrapKeys_getElem R rand.nonce _ recipients 0 i hi] at hwi
    rw [hkeys, wrapKeys_getElem R rand.nonce _ recipients 0 j hj] at hwj
    have hwi2 := Option.some.inj hwi
    have hwj2 := Option.some.inj hwj
    subst hwi2
    subst hwj2
    intro heq
    dsimp only at heq
    have hnn := hNon (hInj _ _ _ _ _ _ heq)
    omega

/-- Witness for C1 with the concrete transparent oracles, the AES key
00ff and two recipients. -/
theorem hybridRoundTrip_witness :
    decryptMessage toyRsa toyAes
        (encryptMessageForRecipients toyRsa toyAes ⟨"00ff", "11", fun n => n⟩ "hi"
          [⟨1, 10⟩, ⟨2, 20⟩]).encryptedContent
        (encryptMessageForRecipients toyRsa toyAes ⟨"00ff", "11", fun n => n⟩ "hi"
          [⟨1, 10⟩, ⟨2, 20⟩]).iv
        (10, 0, [0, 255]) 10 = some "hi" ∧
    ((10, 0, [0, 255]) : Nat × Nat × List Nat) ≠ (20, 1, [0, 255]) := by
  have h := hybridRoundTrip toyRsa toyAes ⟨"00ff", "11", fun n => n⟩ "hi" [⟨1, 10⟩, ⟨2, 20⟩]
    (fun kp n d => by simp [toyRsa])
    (fun kp kp2 n n2 d d2 hh => congrArg (fun p => p.2.1) hh)
    (fun key iv pt => by simp [toyAes])
    (fun a b hh => hh)
    (by decide) (by decide)
  constructor
  · exact (h.2.1 0 (by decide) ⟨1, (10, 0, [0, 255])⟩ (by decide)).2
  · exact h.2.2 0 1 (by decide) (by decide) ⟨1, (10, 0, [0, 255])⟩ ⟨2, (20, 1, [0, 255])⟩
      (by decide) (by decide) (by decide)

-- ── Private-key backup round trip (claim C4) ──

theorem splitOn_no_sep (sep : Char) : ∀ l : List Char, sep ∉ l → splitOn sep l = [l]
  | [], _ => rfl
  | c :: rest, h => by
    have hc : ¬ c = sep := by
      intro hh
      exact h (by simp [hh])
    have ih := splitOn_no_sep sep rest (fun hm => h (List.mem_cons_of_mem c hm))
    unfold splitOn
    rw [if_neg hc, ih]

theorem splitOn_append (sep : Char) : ∀ (a b : List Char), sep ∉ a →
    splitOn sep (a ++ sep :: b) = a :: splitOn sep b
  | [], b, _ => by
    show splitOn sep (sep :: b) = [] :: splitOn sep b
    rw [splitOn, if_pos rfl]
  | c :: a, b, h => by
    have hc : ¬ c = sep := by
      intro hh
      exact h (by simp [hh])
    have ih := splitOn_append sep a b (fun hm => h (List.mem_cons_of_mem c hm))
    show splitOn sep (c :: (a ++ sep :: b)) = (c :: a) :: splitOn sep b
    rw [splitOn, if_neg hc, ih]

theorem decryptPrivateKey_split {AesCt : Type} (A : AesPrims AesCt)
    (kdf : String → String → String) (ct : AesCt) (saltHex ivHex : List Char)
    (p : String) (hs : ':' ∉ saltHex) (hi : ':' ∉ ivHex) :
    decryptPrivateKey A kdf ct (saltHex ++ ':' :: ivHex) p
      = A.dec ct (String.mk ivHex) (kdf p (String.mk saltHex)) := by
  unfold decryptPrivateKey
  rw [splitOn_append ':' saltHex ivHex hs, splitOn_no_sep ':' ivHex hi]
  rfl

/-- Claim C4: decrypting the private-key backup with the same password
recovers the PEM; decrypting with any different password does not
return the original PEM. The hypotheses are the AES-CBC and PBKDF2
library contracts (round trip, wrong-key failure, per-salt collision
freeness) and that the salt and IV hex strings contain no colon. -/
theorem backupRoundTrip {AesCt : Type} (A : AesPrims AesCt)
    (kdf : String → String → String) (saltHex ivHex : List Char)
    (pem password : String)
    (hA : ∀ key iv pt, A.dec (A.enc key iv pt) iv key = some pt)
    (hA2 : ∀ key key2 iv pt, key ≠ key2 → A.dec (A.enc key iv pt) iv key2 ≠ some pt)
    (hKdf : ∀ s p p2, p ≠ p2 → kdf p s ≠ kdf p2 s)
    (hs : ':' ∉ saltHex) (hi : ':' ∉ ivHex) :
    decryptPrivateKey A kdf
        (encryptPrivateKey A kdf saltHex ivHex pem password).encryptedPrivateKey
        (encryptPrivateKey A kdf saltHex ivHex pem password).iv password = some pem ∧
    ∀ password2, password2 ≠ password →
      decryptPrivateKey A kdf
          (encryptPrivateKey A kdf saltHex ivHex pem password).encryptedPrivateKey
          (encryptPrivateKey A kdf saltHex ivHex pem password).iv password2 ≠ some pem := by
  have h1 : (encryptPrivateKey A kdf saltHex ivHex pem password).encryptedPrivateKey
      = A.enc (kdf password (String.mk saltHex)) (String.mk ivHex) pem := rfl
  have h2 : (encryptPrivateKey A kdf saltHex ivHex pem password).iv
      = saltHex ++ ':' :: ivHex := rfl
  constructor
  · rw [h1, h2, decryptPrivateKey_split A kdf _ saltHex ivHex password hs hi]
    exact hA _ _ _
  · intro p2 hp2
    rw [h1, h2, decryptPrivateKey_split A kdf _ saltHex ivHex p2 hs hi]
    exact hA2 _ _ _ _ (hKdf (String.mk saltHex) password p2 hp2.symm)

/-- Witness for C4 with the concrete transparent AES oracle and a
password-keyed derivation. -/
theorem backupRoundTrip_witness :
    decryptPrivateKey toyAes (fun p _ => p)
        (encryptPrivateKey toyAes (fun p _ => p) "ab".data "cd".data "PEM" "pw").encryptedPrivateKey
        (encryptPrivateKey toyAes (fun p _ => p) "ab".data "cd".data "PEM" "pw").iv "pw"
      = some "PEM" ∧
    decryptPrivateKey toyAes (fun p _ => p)
        (encryptPrivateKey toyAes (fun p _ => p) "ab".data "cd".data "PEM" "pw").encryptedPrivateKey
        (encryptPrivateKey toyAes (fun p _ => p) "ab".data "cd".data "PEM" "pw").iv "other"
      ≠ some "PEM" := by
  have h := backupRoundTrip toyAes (fun p _ => p) "ab".data "cd".data "PEM" "pw"
    (fun key iv pt => by simp [toyAes])
    (fun key key2 iv pt hne => by simp [toyAes, hne])
    (fun _ _ _ hh => hh)
    (by decide) (by decide)
  exact ⟨h.1, h.2 "other" (by decide)⟩

-- ── Delivery-marking normal forms ──

theorem applyMarks_message_id (c : Nat → Nat → Bool) (d : DeliveryRow) :
    (applyMarks c d).message_id = d.message_id := by
  unfold applyMarks
  split <;> rfl

theorem applyMarks_user_id (c : Nat → Nat → Bool) (d : DeliveryRow) :
    (applyMarks c d).user_id = d.user_id := by
  unfold applyMarks
  split <;> rfl

theorem applyMarks_delivered (c : Nat → Nat → Bool) (d : DeliveryRow) :
    (applyMarks c d).delivered = (d.delivered || c d.message_id d.user_id) := by
  cases hc : c d.message_id d.user_id <;> simp [applyMarks, hc]

theorem applyMarks_comp (c1 c2 : Nat → Nat → Bool) (d : DeliveryRow) :
    applyMarks c1 (applyMarks c2 d)
      = applyMarks (fun mi ui => c1 mi ui || c2 mi ui) d := by
  cases hc2 : c2 d.message_id d.user_id <;> cases hc1 : c1 d.message_id d.user_id <;>
    simp [applyMarks, hc1, hc2]

theorem applyMarks_congr (c1 c2 : Nat → Nat → Bool) (d : DeliveryRow)
    (h : c1 d.message_id d.user_id = c2 d.message_id d.user_id) :
    applyMarks c1 d = applyMarks c2 d := by
  unfold applyMarks
  rw [h]

theorem mark_db (db : Db) (m u : Nat) :
    dbMarkDelivered db m u
      = { db with deliveries :=
            db.deliveries.map (applyMarks (fun mi ui => mi == m && ui == u)) } := rfl

theorem pollFold_deliveries (u : Nat) :
    ∀ (ms : List JoinedRow) (db : Db),
      ((ms.foldl (fun acc m => dbMarkDelivered acc m.id u) db)).deliveries
        = db.deliveries.map (applyMarks (pollCond ms u))
  | [], db => by
    have hfun : applyMarks (pollCond [] u) = fun d => d :=
      funext (fun d => by simp [applyMarks, pollCond])
    rw [List.foldl_nil, hfun, List.map_id']
  | m :: ms, db => by
    have ih := pollFold_deliveries u ms (dbMarkDelivered db m.id u)
    rw [List.foldl_cons, ih, mark_db]
    show (db.deliveries.map _).map _ = _
    rw [List.map_map]
    refine List.map_congr_left (fun d _ => ?_)
    rw [Function.comp_apply, applyMarks_comp]
    refine applyMarks_congr _ _ d ?_
    cases hA : (d.message_id == m.id) <;> cases hB : (d.user_id == u) <;>
      cases hC : ms.any (fun x => d.message_id == x.id) <;>
        simp [pollCond, hA, hB, hC]

theorem pollFold_messages (u : Nat) :
    ∀ (ms : List JoinedRow) (db : Db),
      ((ms.foldl (fun acc m => dbMarkDelivered acc m.id u) db)).messages = db.messages
  | [], _ => rfl
  | m :: ms, db => pollFold_messages u ms (dbMarkDelivered db m.id u)

theorem pollFold_users (u : Nat) :
    ∀ (ms : List JoinedRow) (db : Db),
      ((ms.foldl (fun acc m => dbMarkDelivered acc m.id u) db)).users = db.users
  | [], _ => rfl
  | m :: ms, db => pollFold_users u ms (dbMarkDelivered db m.id u)

theorem pollFold_nextId (u : Nat) :
    ∀ (ms : List JoinedRow) (db : Db),
      ((ms.foldl (fun acc m => dbMarkDelivered acc m.id u) db)).nextId = db.nextId
  | [], _ => rfl
  | m :: ms, db => pollFold_nextId u ms (dbMarkDelivered db m.id u)

-- ── Broadcast normal forms ──

theorem broadcastGo_waiting (resolves : Nat → Bool) (md : BroadcastData)
    (keys : List (Nat × String)) :
    ∀ (waiting : List Nat) (db : Db),
      (broadcastGo resolves md keys db waiting).waiting
        = waiting.filter (bcastKeeps md keys)
  | [], _ => rfl
  | u :: rest, db => by
    cases h1 : (u == md.senderId) with
    | true =>
      simp only [broadcastGo, h1, if_true]
      rw [broadcastGo_waiting resolves md keys rest db]
      simp [List.filter_cons, bcastKeeps, h1]
    | false =>
      cases h2 : keyLookup keys u with
      | none =>
        simp only [broadcastGo, h1, Bool.false_eq_true, if_false, h2]
        rw [broadcastGo_waiting resolves md keys rest db]
        simp [List.filter_cons, bcastKeeps, h1, h2]
      | some k =>
        cases h3 : resolves u with
        | true =>
          simp only [broadcastGo, h1, Bool.false_eq_true, if_false, h2, h3, if_true]
          rw [broadcastGo_waiting resolves md keys rest (dbMarkDelivered db md.id u)]
          simp [List.filter_cons, bcastKeeps, h1, h2]
        | false =>
          simp only [broadcastGo, h1, Bool.false_eq_true, if_false, h2, h3]
          rw [broadcastGo_waiting resolves md keys rest db]
          simp [List.filter_cons, bcastKeeps, h1, h2]

theorem broadcastGo_db_deliveries (resolves : Nat → Bool) (md : BroadcastData)
    (keys : List (Nat × String)) :
    ∀ (waiting : List Nat) (db : Db),
      (broadcastGo resolves md keys db waiting).db.deliveries
        = db.deliveries.map (applyMarks (bcastCond resolves md keys waiting))
  | [], db => by
    have hfun : applyMarks (bcastCond resolves md keys []) = fun d => d :=
      funext (fun d => by simp [applyMarks, bcastCond])
    rw [show (broadcastGo resolves md keys db []).db = db from rfl, hfun, List.map_id']
  | u :: rest, db => by
    have hskip : ∀ (hcase : (u == md.senderId) = true ∨ keyLookup keys u = none
          ∨ resolves u = false),
        db.deliveries.map (applyMarks (bcastCond resolves md keys rest))
          = db.deliveries.map (applyMarks (bcastCond resolves md keys (u :: rest))) := by
      intro hcase
      refine List.map_congr_left (fun d _ => applyMarks_congr _ _ d ?_)
      cases hud : (d.user_id == u) with
      | false =>
        have hne : ¬ d.user_id = u := by simpa using hud
        simp [bcastCond, List.contains_cons, hne]
      | true =>
        rw [eq_of_beq hud]
        rcases hcase with h | h | h
        · simp [bcastCond, h]
        · simp [bcastCond, h]
        · simp [bcastCond, h]
    cases h1 : (u == md.senderId) with
    | true =>
      simp only [broadcastGo, h1, if_true]
      rw [broadcastGo_db_deliveries resolves md keys rest db]
      exact hskip (Or.inl h1)
    | false =>
      cases h2 : keyLookup keys u with
      | none =>
        simp only [broadcastGo, h1, Bool.false_eq_true, if_false, h2]
        rw [broadcastGo_db_deliveries resolves md keys rest db]
        exact hskip (Or.inr (Or.inl h2))
      | some k =>
        cases h3 : resolves u with
        | false =>
          simp only [broadcastGo, h1, Bool.false_eq_true, if_false, h2, h3]
          rw [broadcastGo_db_deliveries resolves md keys rest db]
          exact hskip (Or.inr (Or.inr h3))
        | true =>
          simp only [broadcastGo, h1, Bool.false_eq_true, if_false, h2, h3, if_true]
          rw [broadcastGo_db_deliveries resolves md keys rest (dbMarkDelivered db md.id u),
            mark_db]
          show (db.deliveries.map _).map _ = _
          rw [List.map_map]
          refine List.map_congr_left (fun d _ => ?_)
          rw [Function.comp_apply, applyMarks_comp]
          refine applyMarks_congr _ _ d ?_
          cases hud : (d.user_id == u) with
          | false =>
            have hne : ¬ d.user_id = u := by simpa using hud
            simp [bcastCond, List.contains_cons, hne]
          | true =>
            rw [eq_of_beq hud]
            cases hmi : (d.message_id == md.id) <;>
              simp [bcastCond, List.contains_cons, hmi, h1, h2, h3]

theorem broadcastGo_db_messages (resolves : Nat → Bool) (md : BroadcastData)
    (keys : List (Nat × String)) :
    ∀ (waiting : List Nat) (db : Db),
      (broadcastGo resolves md keys db waiting).db.messages = db.messages
  | [], _ => rfl
  | u :: rest, db => by
    cases h1 : (u == md.senderId) with
    | true =>
      simp only [broadcastGo, h1, if_true]
      exact broadcastGo_db_messages resolves md keys rest db
    | false =>
      cases h2 : keyLookup keys u with
      | none =>
        simp only [broadcastGo, h1, Bool.false_eq_true, if_false, h2]
        exact broadcastGo_db_messages resolves md keys rest db
      | some k =>
        cases h3 : resolves u with
        | false =>
          simp only [broadcastGo, h1, Bool.false_eq_true, if_false, h2, h3]
          exact broadcastGo_db_messages resolves md keys rest db
        | true =>
          simp only [broadcastGo, h1, Bool.false_eq_true, if_false, h2, h3, if_true]
          exact broadcastGo_db_messages resolves md keys rest (dbMarkDelivered db md.id u)

theorem broadcastGo_db_users (resolves : Nat → Bool) (md : BroadcastData)
    (keys : List (Nat × String)) :
    ∀ (waiting : List Nat) (db : Db),
      (broadcastGo resolves md keys db waiting).db.users = db.users
  | [], _ => rfl
  | u :: rest, db => by
    cases h1 : (u == md.senderId) with
    | true =>
      simp only [broadcastGo, h1, if_true]
      exact broadcastGo_db_users resolves md keys rest db
    | false =>
      cases h2 : keyLookup keys u with
      | none =>
        simp only [broadcastGo, h1, Bool.false_eq_true, if_false, h2]
        exact broadcastGo_db_users resolves md keys rest db
      | some k =>
        cases h3 : resolves u with
        | false =>
          simp only [broadcastGo, h1, Bool.false_eq_true, if_false, h2, h3]
          exact broadcastGo_db_users resolves md keys rest db
        | true =>
          simp only [broadcastGo, h1, Bool.false_eq_true, if_false, h2, h3, if_true]
          exact broadcastGo_db_users resolves md keys rest (dbMarkDelivered db md.id u)

theorem broadcastGo_db_nextId (resolves : Nat → Bool) (md : BroadcastData)
    (keys : List (Nat × String)) :
    ∀ (waiting : List Nat) (db : Db),
      (broadcastGo resolves md keys db waiting).db.nextId = db.nextId
  | [], _ => rfl
  | u :: rest, db => by
    cases h1 : (u == md.senderId) with
    | true =>
      simp only [broadcastGo, h1, if_true]
      exact broadcastGo_db_nextId resolves md keys rest db
    | false =>
      cases h2 : keyLookup keys u with
      | none =>
        simp only [broadcastGo, h1, Bool.false_eq_true, if_false, h2]
        exact broadcastGo_db_nextId resolves md keys rest db
      | some k =>
        cases h3 : resolves u with
        | false =>
          simp only [broadcastGo, h1, Bool.false_eq_true, if_false, h2, h3]
          exact broadcastGo_db_nextId resolves md keys rest db
        | true =>
          simp only [broadcastGo, h1, Bool.false_eq_true, if_false, h2, h3, if_true]
          exact broadcastGo_db_nextId resolves md keys rest (dbMarkDelivered db md.id u)

-- ── Persistence-phase normal forms ──

theorem createDeliveries_deliveries (mId : Nat) :
    ∀ (keys : List (Nat × String)) (db : Db),
      (keys.foldl (fun acc p => dbCreateDeliveryWithKey acc mId p.1 p.2) db).deliveries
        = db.deliveries ++ keys.map (fun p => (⟨mId, p.1, p.2, false⟩ : DeliveryRow))
  | [], db => by simp
  | p :: keys, db => by
    have ih := createDeliveries_deliveries mId keys (dbCreateDeliveryWithKey db mId p.1 p.2)
    rw [List.foldl_cons, ih]
    show (db.deliveries ++ [⟨mId, p.1, p.2, false⟩]) ++ _ = _
    rw [List.append_assoc]
    rfl

theorem createDeliveries_messages (mId : Nat) :
    ∀ (keys : List (Nat × String)) (db : Db),
      (keys.foldl (fun acc p => dbCreateDeliveryWithKey acc mId p.1 p.2) db).messages
        = db.messages
  | [], _ => rfl
  | p :: keys, db =>
    createDeliveries_messages mId keys (dbCreateDeliveryWithKey db mId p.1 p.2)

theorem createDeliveries_users (mId : Nat) :
    ∀ (keys : List (Nat × String)) (db : Db),
      (keys.foldl (fun acc p => dbCreateDeliveryWithKey acc mId p.1 p.2) db).users
        = db.users
  | [], _ => rfl
  | p :: keys, db =>
    createDeliveries_users mId keys (dbCreateDeliveryWithKey db mId p.1 p.2)

theorem createDeliveries_nextId (mId : Nat) :
    ∀ (keys : List (Nat × String)) (db : Db),
      (keys.foldl (fun acc p => dbCreateDeliveryWithKey acc mId p.1 p.2) db).nextId
        = db.nextId
  | [], _ => rfl
  | p :: keys, db =>
    createDeliveries_nextId mId keys (dbCreateDeliveryWithKey db mId p.1 p.2)

theorem persistPhase_row (db : Db) (senderId : Nat) (content iv : String)
    (keys : List (Nat × String)) :
    (persistPhase db senderId content iv keys).1
      = ⟨db.nextId, senderId, content, iv, db.now⟩ := rfl

theorem persistPhase_deliveries (db : Db) (senderId : Nat) (content iv : String)
    (keys : List (Nat × String)) :
    (persistPhase db senderId content iv keys).2.deliveries
      = (db.deliveries ++ keys.map (fun p => (⟨db.nextId, p.1, p.2, false⟩ : DeliveryRow))).map
          (applyMarks (fun mi ui => mi == db.nextId && ui == senderId)) := by
  show (dbMarkDelivered _ db.nextId senderId).deliveries = _
  rw [mark_db]
  show (_ : Db).deliveries.map _ = _
  rw [createDeliveries_deliveries]

theorem persistPhase_messages (db : Db) (senderId : Nat) (content iv : String)
    (keys : List (Nat × String)) :
    (persistPhase db senderId content iv keys).2.messages
      = db.messages ++ [⟨db.nextId, senderId, content, iv, db.now⟩] := by
  show (dbMarkDelivered _ db.nextId senderId).messages = _
  rw [show ∀ d m u, (dbMarkDelivered d m u).messages = d.messages from fun _ _ _ => rfl]
  rw [createDeliveries_messages]

theorem persistPhase_users (db : Db) (senderId : Nat) (content iv : String)
    (keys : List (Nat × String)) :
    (persistPhase db senderId content iv keys).2.users = db.users := by
  show (dbMarkDelivered _ db.nextId senderId).users = _
  rw [show ∀ d m u, (dbMarkDelivered d m u).users = d.users from fun _ _ _ => rfl]
  rw [createDeliveries_users]

theorem persistPhase_nextId (db : Db) (senderId : Nat) (content iv : String)
    (keys : List (Nat × String)) :
    (persistPhase db senderId content iv keys).2.nextId = db.nextId + 1 := by
  show (dbMarkDelivered _ db.nextId senderId).nextId = _
  rw [show ∀ d m u, (dbMarkDelivered d m u).nextId = d.nextId from fun _ _ _ => rfl]
  rw [createDeliveries_nextId]

-- ── Step normal forms ──

theorem step_poll_db (s : St) (u : Nat) :
    (step s (Op.poll u)).db = (getMessagesForUser s.db u).2 := by
  show (if ((dbGetUndeliveredForUserE2E s.db u).map toView).isEmpty
      then St.mk ((getMessagesForUser s.db u).2) (registerClient s.waiting u)
      else St.mk ((getMessagesForUser s.db u).2) s.waiting).db
    = (getMessagesForUser s.db u).2
  split <;> rfl

theorem step_poll_db_deliveries (s : St) (u : Nat) :
    (step s (Op.poll u)).db.deliveries
      = s.db.deliveries.map (applyMarks (pollCond (dbGetUndeliveredForUserE2E s.db u) u)) := by
  rw [step_poll_db]
  exact pollFold_deliveries u _ s.db

theorem step_poll_db_nextId (s : St) (u : Nat) :
    (step s (Op.poll u)).db.nextId = s.db.nextId := by
  rw [step_poll_db]
  exact pollFold_nextId u _ s.db

theorem step_history_db (s : St) (u : Nat) (p ps : Int) :
    (step s (Op.history u p ps)).db = s.db := rfl

theorem step_register_db (s : St) (u : Nat) :
    (step s (Op.register u)).db = s.db := rfl

theorem step_remove_db (s : St) (u : Nat) :
    (step s (Op.remove u)).db = s.db := rfl

theorem step_send_db (s : St) (sid : Nat) (su c iv : String)
    (keys : List (Nat × String)) (resolves : Nat → Bool) :
    (step s (Op.send sid su c iv keys resolves)).db
      = (broadcastGo resolves ⟨s.db.nextId, sid, su, c, iv, s.db.now⟩ keys
          (persistPhase s.db sid c iv keys).2 s.waiting).db := rfl

theorem step_send_db_deliveries (s : St) (sid : Nat) (su c iv : String)
    (keys : List (Nat × String)) (resolves : Nat → Bool) :
    (step s (Op.send sid su c iv keys resolves)).db.deliveries
      = (s.db.deliveries
            ++ keys.map (fun p => (⟨s.db.nextId, p.1, p.2, false⟩ : DeliveryRow))).map
          (applyMarks (fun mi ui =>
            bcastCond resolves ⟨s.db.nextId, sid, su, c, iv, s.db.now⟩ keys s.waiting mi ui
              || (mi == s.db.nextId && ui == sid))) := by
  rw [step_send_db, broadcastGo_db_deliveries, persistPhase_deliveries, List.map_map]
  refine List.map_congr_left (fun d _ => ?_)
  rw [Function.comp_apply, applyMarks_comp]

theorem step_send_db_nextId (s : St) (sid : Nat) (su c iv : String)
    (keys : List (Nat × String)) (resolves : Nat → Bool) :
    (step s (Op.send sid su c iv keys resolves)).db.nextId = s.db.nextId + 1 := by
  rw [step_send_db, broadcastGo_db_nextId, persistPhase_nextId]

-- ── Row-flag extraction ──

theorem any_ids_map (m u : Nat) (c : Nat → Nat → Bool) :
    ∀ l : List DeliveryRow,
      (l.map (applyMarks c)).any (fun d => d.message_id == m && d.user_id == u)
        = l.any (fun d => d.message_id == m && d.user_id == u)
  | [] => rfl
  | d :: l => by
    simp only [List.map_cons, List.any_cons, any_ids_map m u c l,
      applyMarks_message_id, applyMarks_user_id]

theorem any_del_map (m u : Nat) (c : Nat → Nat → Bool) :
    ∀ l : List DeliveryRow,
      (l.map (applyMarks c)).any (fun d => d.message_id == m && d.user_id == u && d.delivered)
        = l.any (fun d => d.message_id == m && d.user_id == u && (d.delivered || c m u))
  | [] => rfl
  | d :: l => by
    simp only [List.map_cons, List.any_cons, any_del_map m u c l]
    congr 1
    rw [applyMarks_message_id, applyMarks_user_id, applyMarks_delivered]
    cases h1 : (d.message_id == m) with
    | false => simp
    | true =>
      cases h2 : (d.user_id == u) with
      | false => simp
      | true =>
        rw [eq_of_beq h1, eq_of_beq h2]

theorem any_del_mono (m u : Nat) (c : Nat → Nat → Bool) (l : List DeliveryRow)
    (h : l.any (fun d => d.message_id == m && d.user_id == u && d.delivered) = true) :
    l.any (fun d => d.message_id == m && d.user_id == u && (d.delivered || c m u))
      = true := by
  rw [List.any_eq_true] at h ⊢
  obtain ⟨d, hd, hp⟩ := h
  refine ⟨d, hd, ?_⟩
  simp only [Bool.and_eq_true, Bool.or_eq_true] at hp ⊢
  tauto

-- ── Step-level delivery-flag facts ──

theorem rowDelivered_mono_step (s : St) (op : Op) (m u : Nat)
    (h : rowDelivered s.db m u = true) : rowDelivered (step s op).db m u = true := by
  cases op with
  | history uu p ps => rwa [step_history_db]
  | register uu => rwa [step_register_db]
  | remove uu => rwa [step_remove_db]
  | poll uu =>
    unfold rowDelivered at h ⊢
    rw [step_poll_db_deliveries, any_del_map]
    exact any_del_mono m u _ _ h
  | send sid su c iv keys resolves =>
    unfold rowDelivered at h ⊢
    rw [step_send_db_deliveries, List.map_append, List.any_append, any_del_map]
    have hl := any_del_mono m u
      (fun mi ui =>
        bcastCond resolves ⟨s.db.nextId, sid, su, c, iv, s.db.now⟩ keys s.waiting mi ui
          || (mi == s.db.nextId && ui == sid)) s.db.deliveries h
    rw [hl]
    rfl

theorem wf_step (s : St) (op : Op) (h : WfDb s.db) : WfDb (step s op).db := by
  cases op with
  | history uu p ps => rwa [step_history_db]
  | register uu => rwa [step_register_db]
  | remove uu => rwa [step_remove_db]
  | poll uu =>
    intro d hd
    rw [step_poll_db_nextId]
    rw [step_poll_db_deliveries] at hd
    obtain ⟨d0, hd0, rfl⟩ := List.mem_map.mp hd
    rw [applyMarks_message_id]
    exact h d0 hd0
  | send sid su c iv keys resolves =>
    intro d hd
    rw [step_send_db_nextId]
    rw [step_send_db_deliveries] at hd
    obtain ⟨d0, hd0, rfl⟩ := List.mem_map.mp hd
    rw [applyMarks_message_id]
    rcases List.mem_append.mp hd0 with h0 | h0
    · exact Nat.lt_succ_of_lt (h d0 h0)
    · obtain ⟨p, hp, rfl⟩ := List.mem_map.mp h0
      exact Nat.lt_succ_self _

theorem step_cause (s : St) (op : Op) (m u : Nat) (hwf : WfDb s.db)
    (hex : rowExists s.db m u = true) (hnot : rowDelivered s.db m u = false)
    (hafter : rowDelivered (step s op).db m u = true) : op = Op.poll u := by
  cases op with
  | history uu p ps =>
    rw [step_history_db] at hafter
    rw [hafter] at hnot
    cases hnot
  | register uu =>
    rw [step_register_db] at hafter
    rw [hafter] at hnot
    cases hnot
  | remove uu =>
    rw [step_remove_db] at hafter
    rw [hafter] at hnot
    cases hnot
  | poll uu =>
    unfold rowDelivered at hafter hnot
    rw [step_poll_db_deliveries, any_del_map, List.any_eq_true] at hafter
    obtain ⟨d, hd, hp⟩ := hafter
    simp only [Bool.and_eq_true, Bool.or_eq_true] at hp
    obtain ⟨⟨h1, h2⟩, h3⟩ := hp
    rcases h3 with h3 | h3
    · exfalso
      have : s.db.deliveries.any
          (fun d => d.message_id == m && d.user_id == u && d.delivered) = true :=
        List.any_eq_true.mpr ⟨d, hd, by simp [h1, h2, h3]⟩
      rw [this] at hnot
      cases hnot
    · simp only [pollCond, Bool.and_eq_true] at h3
      rw [show uu = u from (eq_of_beq h3.2).symm]
  | send sid su c iv keys resolves =>
    exfalso
    unfold rowExists at hex
    rw [List.any_eq_true] at hex
    obtain ⟨d0, hd0, hp0⟩ := hex
    rw [Bool.and_eq_true] at hp0
    have hm : m < s.db.nextId := by
      have hlt := hwf d0 hd0
      rw [eq_of_beq hp0.1] at hlt
      exact hlt
    unfold rowDelivered at hafter hnot
    rw [step_send_db_deliveries, List.map_append, List.any_append, Bool.or_eq_true] at hafter
    rcases hafter with hL | hR
    · rw [any_del_map, List.any_eq_true] at hL
      obtain ⟨d, hd, hp⟩ := hL
      simp only [Bool.and_eq_true, Bool.or_eq_true] at hp
      obtain ⟨⟨h1, h2⟩, h3⟩ := hp
      rcases h3 with h3 | h3
      · have : s.db.deliveries.any
            (fun d => d.message_id == m && d.user_id == u && d.delivered) = true :=
          List.any_eq_true.mpr ⟨d, hd, by simp [h1, h2, h3]⟩
        rw [this] at hnot
        cases hnot
      · rcases h3 with h4 | h4
        · simp only [bcastCond, Bool.and_eq_true] at h4
          have hEq := eq_of_beq h4.1.1.1.1
          omega
        · have hEq := eq_of_beq h4.1
          omega
    · rw [List.any_eq_true] at hR
      obtain ⟨d, hd, hp⟩ := hR
      obtain ⟨d1, hd1, rfl⟩ := List.mem_map.mp hd
      obtain ⟨p, hpmem, rfl⟩ := List.mem_map.mp hd1
      rw [Bool.and_eq_true, Bool.and_eq_true] at hp
      have h1 := hp.1.1
      rw [applyMarks_message_id] at h1
      have : s.db.nextId = m := eq_of_beq h1
      omega

-- ── Run-level delivery-flag facts ──

theorem rowDelivered_mono_run (m u : Nat) :
    ∀ (ops : List Op) (s : St), rowDelivered s.db m u = true →
      rowDelivered (runOps s ops).db m u = true
  | [], _, h => h
  | op :: ops, s, h =>
    rowDelivered_mono_run m u ops (step s op) (rowDelivered_mono_step s op m u h)

theorem wf_run : ∀ (ops : List Op) (s : St), WfDb s.db → WfDb (runOps s ops).db
  | [], _, h => h
  | op :: ops, s, h => wf_run ops (step s op) (wf_step s op h)

theorem stAt_succ (s0 : St) (ops : List Op) (k : Nat) (hk : k < ops.length) :
    stAt s0 ops (k + 1) = step (stAt s0 ops k) ops[k] := by
  unfold stAt runOps
  rw [show ops.take (k + 1) = ops.take k ++ [ops[k]] from by
    rw [← List.take_concat_get ops k hk, List.concat_eq_append]]
  rw [List.foldl_append]
  rfl

theorem stAt_mono (s0 : St) (ops : List Op) (m u : Nat) (k k2 : Nat) (hk : k ≤ k2)
    (h : rowDelivered (stAt s0 ops k).db m u = true) :
    rowDelivered (stAt s0 ops k2).db m u = true := by
  have hkk : k + (k2 - k) = k2 := by omega
  have hsplit : ops.take k2 = ops.take k ++ ((ops.drop k).take (k2 - k)) := by
    conv_lhs => rw [← hkk]
    rw [List.take_add]
  unfold stAt runOps at h ⊢
  rw [hsplit, List.foldl_append]
  exact rowDelivered_mono_run m u _ _ h

-- ── Poll delivery helpers ──

theorem pollReturnsRow (db : Db) (uu mm : Nat) (kk : String)
    (hd : (⟨mm, uu, kk, false⟩ : DeliveryRow) ∈ db.deliveries)
    (hm : ∃ mr ∈ db.messages, mr.id = mm) :
    ∃ v ∈ (getMessagesForUser db uu).1, v.id = mm ∧ v.encryptedKey = kk := by
  have hfind : ∃ mr2, db.messages.find? (fun m => m.id == mm) = some mr2 := by
    have hsome : (db.messages.find? (fun m => m.id == mm)).isSome := by
      rw [List.find?_isSome]
      obtain ⟨mr, hmr, hid⟩ := hm
      exact ⟨mr, hmr, by simp [hid]⟩
    exact Option.isSome_iff_exists.mp hsome
  obtain ⟨mr2, hmr2⟩ := hfind
  have hid2 : mr2.id = mm := by
    have hpa := List.find?_some hmr2
    simpa using hpa
  have hdj : (⟨mm, uu, kk, false⟩ : DeliveryRow)
      ∈ db.deliveries.filter (fun d => d.user_id == uu && !d.delivered) := by
    rw [List.mem_filter]
    exact ⟨hd, by simp⟩
  refine ⟨toView ⟨mr2.id, mr2.sender_id, dbSenderUsername db mr2.sender_id,
      mr2.encrypted_content, mr2.encryption_iv, kk, mr2.created_at⟩, ?_, hid2, rfl⟩
  show _ ∈ (dbGetUndeliveredForUserE2E db uu).map toView
  refine List.mem_map.mpr ⟨_, ?_, rfl⟩
  unfold dbGetUndeliveredForUserE2E
  refine List.mem_filterMap.mpr ⟨⟨mm, uu, kk, false⟩, hdj, ?_⟩
  show (db.messages.find? (fun m => m.id == mm)).map _ = _
  rw [hmr2]
  rfl

theorem secondPollEmpty (db : Db) (uu : Nat) :
    (getMessagesForUser (getMessagesForUser db uu).2 uu).1 = [] := by
  have hdel : (getMessagesForUser db uu).2.deliveries
      = db.deliveries.map (applyMarks (pollCond (dbGetUndeliveredForUserE2E db uu) uu)) :=
    pollFold_deliveries uu _ db
  have hmsg : (getMessagesForUser db uu).2.messages = db.messages :=
    pollFold_messages uu _ db
  show ((dbGetUndeliveredForUserE2E ((getMessagesForUser db uu).2) uu).map toView) = []
  rw [show dbGetUndeliveredForUserE2E ((getMessagesForUser db uu).2) uu = [] from ?_]
  · rfl
  · unfold dbGetUndeliveredForUserE2E
    rw [List.filterMap_eq_nil]
    intro d hd
    rw [List.mem_filter] at hd
    obtain ⟨hdm, hdp⟩ := hd
    rw [hdel] at hdm
    obtain ⟨d0, hd0, rfl⟩ := List.mem_map.mp hdm
    rw [Bool.and_eq_true] at hdp
    obtain ⟨hu, hnd⟩ := hdp
    rw [applyMarks_user_id] at hu
    rw [Bool.not_eq_true'] at hnd
    rw [applyMarks_delivered, Bool.or_eq_false_iff] at hnd
    obtain ⟨hd0f, hCf⟩ := hnd
    simp only [pollCond, hu, Bool.and_true] at hCf
    show ((getMessagesForUser db uu).2.messages.find?
        (fun m => m.id == (applyMarks _ d0).message_id)).map _ = none
    rw [hmsg, applyMarks_message_id]
    cases hf : db.messages.find? (fun m => m.id == d0.message_id) with
    | none => rfl
    | some mr =>
      exfalso
      have hview : (⟨mr.id, mr.sender_id, dbSenderUsername db mr.sender_id,
          mr.encrypted_content, mr.encryption_iv, d0.encrypted_key, mr.created_at⟩ : JoinedRow)
          ∈ dbGetUndeliveredForUserE2E db uu := by
        unfold dbGetUndeliveredForUserE2E
        refine List.mem_filterMap.mpr ⟨d0, ?_, ?_⟩
        · rw [List.mem_filter]
          refine ⟨hd0, ?_⟩
          rw [Bool.and_eq_true]
          exact ⟨hu, by simp [hd0f]⟩
        · show (db.messages.find? (fun m => m.id == d0.message_id)).map _ = _
          rw [hf]
          rfl
      have hbeq : (d0.message_id == mr.id) = true := by
        have hid : mr.id = d0.message_id := by
          have hpa := List.find?_some hf
          simpa using hpa
        simp [hid]
      rw [List.any_eq_false] at hCf
      exact absurd hbeq (hCf _ hview)

-- ── Delivery lifecycle (claim C2) ──

/-- Claim C2: across any run of service operations from a well-formed
store, a delivery row flips from false to true at most at one step, and
any step at which it flips is a poll fetch by that user (hence one of
the listed delivery paths; at the observable operation granularity the
broadcast inside a send only ever marks rows of the freshly created
message); a poll returns an undelivered row with its user-specific
wrapped key, and a second immediate poll returns the empty list. -/
theorem deliveryLifecycle (s0 : St) (ops : List Op) (m u : Nat) (hwf : WfDb s0.db) :
    (∀ (k k2 : Nat), k < ops.length → k2 < ops.length →
      transAt s0 ops m u k → transAt s0 ops m u k2 → k = k2) ∧
    (∀ (k : Nat) (hk : k < ops.length), transAt s0 ops m u k → ops[k] = Op.poll u) ∧
    (∀ (db : Db) (uu : Nat), (getMessagesForUser (getMessagesForUser db uu).2 uu).1 = []) ∧
    (∀ (db : Db) (uu mm : Nat) (kk : String),
      (⟨mm, uu, kk, false⟩ : DeliveryRow) ∈ db.deliveries →
      (∃ mr ∈ db.messages, mr.id = mm) →
      ∃ v ∈ (getMessagesForUser db uu).1, v.id = mm ∧ v.encryptedKey = kk) := by
  have huniq : ∀ (k k2 : Nat), k < k2 → k2 < ops.length →
      transAt s0 ops m u k → transAt s0 ops m u k2 → False := by
    intro k k2 hlt hk2 ht1 ht2
    obtain ⟨_, _, h3⟩ := ht1
    obtain ⟨_, h5, _⟩ := ht2
    have hmono := stAt_mono s0 ops m u (k + 1) k2 (by omega) h3
    rw [hmono] at h5
    cases h5
  refine ⟨?_, ?_, ?_, ?_⟩
  · intro k k2 hk hk2 ht1 ht2
    rcases Nat.lt_trichotomy k k2 with h | h | h
    · exact (huniq k k2 h hk2 ht1 ht2).elim
    · exact h
    · exact (huniq k2 k h hk ht2 ht1).elim
  · intro k hk ht
    obtain ⟨h1, h2, h3⟩ := ht
    rw [stAt_succ s0 ops k hk] at h3
    exact step_cause (stAt s0 ops k) ops[k] m u (wf_run (ops.take k) s0 hwf) h1 h2 h3
  · exact fun db uu => secondPollEmpty db uu
  · exact fun db uu mm kk hd hm => pollReturnsRow db uu mm kk hd hm

/-- Witness for C2: a one-poll run on a store holding one undelivered
row; the flip step is the poll, and the immediate second poll of the
same user is empty. -/
theorem deliveryLifecycle_witness :
    (getMessagesForUser (getMessagesForUser
        (⟨[(1, "ann")], [⟨5, 1, "ct", "iv", 0⟩], [⟨5, 2, "key", false⟩], 6, 3⟩ : Db) 2).2 2).1
      = [] ∧
    ([Op.poll 2].get ⟨0, by decide⟩) = Op.poll 2 := by
  have h := deliveryLifecycle
    ⟨⟨[(1, "ann")], [⟨5, 1, "ct", "iv", 0⟩], [⟨5, 2, "key", false⟩], 6, 3⟩, []⟩
    [Op.poll 2] 5 2
    (by
      intro d hd
      rw [List.mem_singleton] at hd
      subst hd
      decide)
  refine ⟨h.2.2.1 _ 2, ?_⟩
  exact h.2.1 0 (by decide) ⟨by decide, by decide, by decide⟩

-- ── Ordering inside createMessage (claim C3) ──

/-- Claim C3: createMessage persists the message row, one delivery row
per keys entry (the sender entry already marked delivered), all before
the broadcast attempt (the broadcast runs on the fully persisted
store), and the returned value is the id / sender / username /
timestamp record fixed before the broadcast; in the event trace every
persistence event precedes the broadcast attempt and the return. -/
theorem createMessage_order (db : Db) (waiting : List Nat) (resolves : Nat → Bool)
    (sid : Nat) (su c iv : String) (keys : List (Nat × String)) :
    (createMessage db waiting resolves sid su c iv keys).1
        = ⟨db.nextId, sid, su, db.now⟩ ∧
    (⟨db.nextId, sid, c, iv, db.now⟩ : MessageRow)
        ∈ (persistPhase db sid c iv keys).2.messages ∧
    (∀ p ∈ keys, (⟨db.nextId, p.1, p.2, p.1 == sid⟩ : DeliveryRow)
        ∈ (persistPhase db sid c iv keys).2.deliveries) ∧
    (createMessage db waiting resolves sid su c iv keys).2.1
      = (broadcastToClientsE2E (persistPhase db sid c iv keys).2 waiting resolves
          ⟨db.nextId, sid, su, c, iv, db.now⟩ keys).db ∧
    (∃ pre, (createMessage db waiting resolves sid su c iv keys).2.2.2
        = pre ++ [CmEvent.broadcastAttempt db.nextId, CmEvent.returnResult]
      ∧ ∀ e ∈ pre, isPersistEv e = true) := by
  refine ⟨rfl, ?_, ?_, rfl, ?_⟩
  · rw [persistPhase_messages]
    exact List.mem_append.mpr (Or.inr (List.mem_singleton.mpr rfl))
  · intro p hp
    rw [persistPhase_deliveries]
    refine List.mem_map.mpr ⟨⟨db.nextId, p.1, p.2, false⟩,
      List.mem_append.mpr (Or.inr (List.mem_map.mpr ⟨p, hp, rfl⟩)), ?_⟩
    cases hps : (p.1 == sid) with
    | true => simp [applyMarks, hps]
    | false => simp [applyMarks, hps]
  · refine ⟨CmEvent.persistMessage db.nextId
        :: keys.map (fun p => CmEvent.persistDelivery db.nextId p.1)
      ++ [CmEvent.markSenderDelivered db.nextId sid], rfl, ?_⟩
    intro e he
    rcases List.mem_append.mp he with h | h
    · rcases List.mem_cons.mp h with rfl | h2
      · rfl
      · obtain ⟨p, hp, rfl⟩ := List.mem_map.mp h2
        rfl
    · rw [List.mem_singleton] at h
      subst h
      rfl

/-- Witness for C3 at a concrete store and two recipients. -/
theorem createMessage_order_witness :
    (createMessage ⟨[], [], [], 7, 4⟩ [] (fun _ => false) 1 "ann" "ct" "iv"
        [(1, "k1"), (2, "k2")]).1 = ⟨7, 1, "ann", 4⟩ ∧
    (⟨7, 2, "k2", false⟩ : DeliveryRow)
      ∈ (persistPhase ⟨[], [], [], 7, 4⟩ 1 "ct" "iv" [(1, "k1"), (2, "k2")]).2.deliveries := by
  have h := createMessage_order ⟨[], [], [], 7, 4⟩ [] (fun _ => false) 1 "ann" "ct" "iv"
    [(1, "k1"), (2, "k2")]
  exact ⟨h.1, h.2.2.1 (2, "k2") (by decide)⟩

-- ── Broadcast resolution failure (claim C9) ──

/-- Claim C9: a waiting non-sender client with a wrapped key is removed
from the registry by the broadcast whether or not its response
resolves; when res.json throws, its delivery row is not marked (the
flag is unchanged) and the message is still returned by the next poll
of that user; a row is newly marked only for clients whose response
resolved successfully. -/
theorem broadcastFailureHandling (db : Db) (waiting : List Nat) (resolves : Nat → Bool)
    (md : BroadcastData) (keys : List (Nat × String)) (u : Nat) (k : String)
    (hu : u ∈ waiting) (hns : u ≠ md.senderId) (hk : keyLookup keys u = some k) :
    u ∉ (broadcastToClientsE2E db waiting resolves md keys).waiting ∧
    (resolves u = false →
      rowDelivered (broadcastToClientsE2E db waiting resolves md keys).db md.id u
        = rowDelivered db md.id u) ∧
    (∀ kk : String, resolves u = false →
      (⟨md.id, u, kk, false⟩ : DeliveryRow) ∈ db.deliveries →
      (∃ mr ∈ db.messages, mr.id = md.id) →
      ∃ v ∈ (getMessagesForUser (broadcastToClientsE2E db waiting resolves md keys).db u).1,
        v.id = md.id ∧ v.encryptedKey = kk) ∧
    (resolves u = true → rowExists db md.id u = true →
      rowDelivered (broadcastToClientsE2E db waiting resolves md keys).db md.id u = true) ∧
    (∀ m2 u2,
      rowDelivered (broadcastToClientsE2E db waiting resolves md keys).db m2 u2 = true →
      rowDelivered db m2 u2 = true ∨
        (m2 = md.id ∧ u2 ∈ waiting ∧ u2 ≠ md.senderId
          ∧ (keyLookup keys u2).isSome = true ∧ resolves u2 = true)) := by
  unfold broadcastToClientsE2E
  refine ⟨?_, ?_, ?_, ?_, ?_⟩
  · intro hmem
    rw [broadcastGo_waiting] at hmem
    rw [List.mem_filter] at hmem
    have hkeep := hmem.2
    simp [bcastKeeps, hk, hns] at hkeep
  · intro hrf
    unfold rowDelivered
    rw [broadcastGo_db_deliveries, any_del_map]
    have hc : bcastCond resolves md keys waiting md.id u = false := by
      simp [bcastCond, hrf]
    rw [hc]
    simp
  · intro kk hrf hdd hmm2
    have hc : bcastCond resolves md keys waiting md.id u = false := by
      simp [bcastCond, hrf]
    refine pollReturnsRow _ u md.id kk ?_ ?_
    · rw [broadcastGo_db_deliveries]
      refine List.mem_map.mpr ⟨⟨md.id, u, kk, false⟩, hdd, ?_⟩
      simp only [applyMarks]
      rw [show bcastCond resolves md keys waiting
          (⟨md.id, u, kk, false⟩ : DeliveryRow).message_id
          (⟨md.id, u, kk, false⟩ : DeliveryRow).user_id = false from hc]
      simp
    · rw [broadcastGo_db_messages]
      exact hmm2
  · intro hrt hex
    unfold rowExists at hex
    unfold rowDelivered
    rw [broadcastGo_db_deliveries, any_del_map]
    have hc : bcastCond resolves md keys waiting md.id u = true := by
      simp [bcastCond, hu, hk, hrt, hns]
    rw [hc]
    simp only [Bool.or_true, Bool.and_true]
    exact hex
  · intro m2 u2 h
    unfold rowDelivered at h ⊢
    rw [broadcastGo_db_deliveries, any_del_map, List.any_eq_true] at h
    obtain ⟨d, hd, hp⟩ := h
    simp only [Bool.and_eq_true, Bool.or_eq_true] at hp
    obtain ⟨⟨h1, h2⟩, h3⟩ := hp
    rcases h3 with h3 | h3
    · left
      exact List.any_eq_true.mpr ⟨d, hd, by simp [h1, h2, h3]⟩
    · right
      simp only [bcastCond, Bool.and_eq_true] at h3
      obtain ⟨⟨⟨⟨hA, hB⟩, hC⟩, hD⟩, hE⟩ := h3
      exact ⟨eq_of_beq hA, by simpa using hB, by simpa using hC, hD, hE⟩

/-- Witness for C9: a single waiting recipient whose response throws is
deregistered and its row stays unmarked; with a resolving response the
row is marked. -/
theorem broadcastFailureHandling_witness :
    (broadcastToClientsE2E
        ⟨[(1, "ann")], [⟨9, 1, "ct", "iv", 0⟩], [⟨9, 2, "bk", false⟩], 10, 1⟩
        [2] (fun _ => false) ⟨9, 1, "ann", "ct", "iv", 0⟩ [(2, "bk")]).waiting = [] ∧
    rowDelivered (broadcastToClientsE2E
        ⟨[(1, "ann")], [⟨9, 1, "ct", "iv", 0⟩], [⟨9, 2, "bk", false⟩], 10, 1⟩
        [2] (fun _ => false) ⟨9, 1, "ann", "ct", "iv", 0⟩ [(2, "bk")]).db 9 2
      = rowDelivered ⟨[(1, "ann")], [⟨9, 1, "ct", "iv", 0⟩], [⟨9, 2, "bk", false⟩], 10, 1⟩ 9 2 ∧
    rowDelivered (broadcastToClientsE2E
        ⟨[(1, "ann")], [⟨9, 1, "ct", "iv", 0⟩], [⟨9, 2, "bk", false⟩], 10, 1⟩
        [2] (fun _ => true) ⟨9, 1, "ann", "ct", "iv", 0⟩ [(2, "bk")]).db 9 2 = true := by
  refine ⟨rfl, ?_, ?_⟩
  · exact (broadcastFailureHandling
      ⟨[(1, "ann")], [⟨9, 1, "ct", "iv", 0⟩], [⟨9, 2, "bk", false⟩], 10, 1⟩
      [2] (fun _ => false) ⟨9, 1, "ann", "ct", "iv", 0⟩ [(2, "bk")] 2 "bk"
      (by decide) (by decide) rfl).2.1 rfl
  · exact (broadcastFailureHandling
      ⟨[(1, "ann")], [⟨9, 1, "ct", "iv", 0⟩], [⟨9, 2, "bk", false⟩], 10, 1⟩
      [2] (fun _ => true) ⟨9, 1, "ann", "ct", "iv", 0⟩ [(2, "bk")] 2 "bk"
      (by decide) (by decide) rfl).2.2.2.1 rfl (by decide)
